import Mathlib

/-!
# Calc_Errors: trajectory error computation

A shallow embedding of `src/Calc_Errors.cpp` and theorems about it.

Modelling conventions

* A C++ `double` is an element of a linearly ordered field `α`.  The arithmetic is
  exact: rounding, underflow, overflow and the infinities are not modelled.
  Timestamps and coordinates are numbers; a yaw, and everything computed from a yaw,
  is a `Dbl α`: a number or NaN.  Comparisons with NaN are false and arithmetic on
  NaN gives NaN.
* Two operations of the statistics differ from the doubles of the code beyond
  rounding.  `pow(e, 2)` is the exact square here, while in the code the square of
  an error of magnitude below `2 ^ (-538)` underflows to 0.  A division by zero is
  NaN here, while in the code only `0 / 0` is NaN and a non-zero number divided by
  zero is an infinity, which compares above 3.  The theorems on the statistics state
  only what holds with either reading: they relate the values computed by these
  operations to each other, or evaluate them where no division by zero and no
  underflow occurs.
* `sqrt` comes from `<cmath>` and is a parameter `sqrt`.  The constant `M_PI` is a
  parameter `pi` of the embedded functions; its value in the code, the double nearest
  to the number pi, is the rational number `M_PI` below.
* `unsigned` is a natural number below `2 ^ 32 = 4294967296`, `size_t` one below
  `2 ^ 64 = 18446744073709551616`; arithmetic on them is reduced explicitly.
* `std::vector::at` is `vecAt`, which fails with `Fault.outOfRange`.  A row of
  `csvVec` or `bagVec` is built by `main` with exactly four columns and is a
  structure `Row`; a row of `errorVec` has three columns and is an `ErrorRow`.
* The `while` loop of `findInBag` and the `for` loop of `findValid` are recursions
  on a fuel counter; running out of fuel is `Fault.outOfFuel`.  The loops of `main`
  run over a vector from its first to its last row and are recursions on the list;
  their `int` counters are natural numbers.
* A `std::string` is a list of characters; `find_last_of`, `rfind` and `substr` follow
  the contract of the standard library.
-/

namespace CalcErrors

/-- A C++ double that may be NaN. -/
inductive Dbl (α : Type) where
  | nan : Dbl α
  | num : α → Dbl α
  deriving DecidableEq, Repr

/-- The two ways a run can stop without a value: an exception thrown by
`std::vector::at`, or a loop that used up its fuel. -/
inductive Fault where
  | outOfRange : Fault
  | outOfFuel : Fault
  deriving DecidableEq, Repr

deriving instance DecidableEq for Except

/-- One row of `csvVec` or of `bagVec`: columns `timeIndex`, `xIndex`, `yIndex`,
`yawIndex`. -/
structure Row (α : Type) where
  time : α
  x : α
  y : α
  yaw : Dbl α
  deriving DecidableEq, Repr

/-- One row of `errorVec`: the time and the columns `positionErrorIndex`,
`orientationErrorIndex`. -/
structure ErrorRow (α : Type) where
  time : α
  positionError : α
  orientationError : Dbl α
  deriving DecidableEq, Repr

/-- The outlier kinds of the specification; `inlier` is its kind `None`, a sample
without a row in `outlierVec`. -/
inductive OutlierKind where
  | inlier : OutlierKind
  | positionOnly : OutlierKind
  | orientationOnly : OutlierKind
  | both : OutlierKind
  deriving DecidableEq, Repr

/-- Constant `msgSearchRadius`. -/
def msgSearchRadius : Nat := 10

/-- Constant `outlierAtPosition`. -/
def outlierAtPosition : Nat := 0

/-- Constant `outlierAtOrientation`. -/
def outlierAtOrientation : Nat := 1

/-- Constant `outlierAtBoth`. -/
def outlierAtBoth : Nat := 2

section Embedding

variable {α : Type} [LinearOrderedField α]

/-- Constant `zScoreSignificanceLevel`. -/
def zScoreSignificanceLevel : α := 3

namespace Dbl

/-- The test `isnan(a)`. -/
def isnan : Dbl α → Bool
  | nan => true
  | num _ => false

/-- Sum `a + b`. -/
def add : Dbl α → Dbl α → Dbl α
  | num a, num b => num (a + b)
  | _, _ => nan

/-- Difference `a - b`. -/
def sub : Dbl α → Dbl α → Dbl α
  | num a, num b => num (a - b)
  | _, _ => nan

/-- Quotient `a / b` in exact arithmetic; NaN when `b` is zero, also for a non-zero
`a`, where the code has an infinity. -/
def div : Dbl α → Dbl α → Dbl α
  | num a, num b => if b = 0 then nan else num (a / b)
  | _, _ => nan

/-- Square `pow(a, 2)` in exact arithmetic, without the underflow of the code. -/
def pow2 : Dbl α → Dbl α
  | num a => num (a ^ 2)
  | nan => nan

/-- Absolute value `std::abs(a)`. -/
def abs : Dbl α → Dbl α
  | num a => num |a|
  | nan => nan

/-- Square root `sqrt(a)` for the library function `sqrt`; NaN below zero. -/
def sqrt (sqrt : α → α) : Dbl α → Dbl α
  | num a => if a < 0 then nan else num (sqrt a)
  | nan => nan

/-- Comparison `a < b`, false when either side is NaN. -/
def lt : Dbl α → Dbl α → Bool
  | num a, num b => decide (a < b)
  | _, _ => false

/-- Comparison `a > b`, false when either side is NaN. -/
def gt (a b : Dbl α) : Bool := lt b a

end Dbl

/-- Access `v.at(i)` of `std::vector`. -/
def vecAt {β : Type} (v : List β) (i : Nat) : Except Fault β :=
  match v[i]? with
  | some b => .ok b
  | none => .error .outOfRange

/-- The yaw difference with the correction for radian looping, as written in
`main` (lines 127-130) and twice in `findValid` (lines 365-368):
`e = std::abs(a - b); if (e > M_PI && e < M_PI * 2) e = (M_PI * 2) - e;`. -/
def angularError (pi : α) (a b : Dbl α) : Dbl α :=
  let e := Dbl.abs (Dbl.sub a b)
  if Dbl.gt e (.num pi) && Dbl.lt e (.num (pi * 2)) then Dbl.sub (.num (pi * 2)) e else e

/-- The `for` loop of `findValid`, from the test `i <= index + msgSearchRadius` on;
`hi` is the value of `index + msgSearchRadius`. -/
def findValidLoop (pi : α) (csvMsg : Row α) (bag : List (Row α)) (hi : Nat) :
    Nat → Nat → Nat → Except Fault Nat
  | 0, _, _ => .error .outOfFuel
  | fuel + 1, i, bestIndex =>
    if i ≤ hi then
      match vecAt bag i with
      | .error e => .error e
      | .ok bi =>
        if bi.time ≠ csvMsg.time then
          findValidLoop pi csvMsg bag hi fuel ((i + 1) % 4294967296) bestIndex
        else if !bi.yaw.isnan then
          match vecAt bag bestIndex with
          | .error e => .error e
          | .ok bb =>
            let bestIndex1 := if bb.yaw.isnan then i else bestIndex
            let iError := angularError pi bi.yaw csvMsg.yaw
            match vecAt bag bestIndex1 with
            | .error e => .error e
            | .ok bb1 =>
              let _bestIdxError := angularError pi bb1.yaw csvMsg.yaw
              let bestIndex2 := if Dbl.lt iError (.num (bestIndex1 : α)) then i else bestIndex1
              findValidLoop pi csvMsg bag hi fuel ((i + 1) % 4294967296) bestIndex2
        else
          findValidLoop pi csvMsg bag hi fuel ((i + 1) % 4294967296) bestIndex
    else .ok bestIndex

/-- Function `findValid`.  `index` is an `unsigned`; `bag.size() - msgSearchRadius`
is computed in `size_t`. -/
def findValid (fuel : Nat) (pi : α) (csvMsg : Row α) (bag : List (Row α)) (index : Nat) :
    Except Fault Nat :=
  if msgSearchRadius ≤ index ∧
      index < (bag.length + 18446744073709551616 - msgSearchRadius) % 18446744073709551616 then
    findValidLoop pi csvMsg bag ((index + msgSearchRadius) % 4294967296) fuel
      (index - msgSearchRadius) index
  else .ok index

/-- The `while (i < j)` loop of `findInBag` with the final `return`; `n` counts the
iterations still allowed, `fuel` is handed to `findValid`. -/
def findInBagLoop (fuel : Nat) (pi : α) (csvMsg : Row α) (bag : List (Row α)) (val : α) :
    Nat → Nat → Nat → Nat → Except Fault Nat
  | 0, _, _, _ => .error .outOfFuel
  | n + 1, i, j, mid =>
    if i < j then
      let mid1 := (i + j) % 4294967296 / 2
      match vecAt bag mid1 with
      | .error e => .error e
      | .ok m =>
        if m.time = val then findValid fuel pi csvMsg bag mid1
        else if m.time > val then findInBagLoop fuel pi csvMsg bag val n i mid1 mid1
        else findInBagLoop fuel pi csvMsg bag val n ((mid1 + 1) % 4294967296) j mid1
    else findValid fuel pi csvMsg bag mid

/-- Function `findInBag`.  `bag.size() - 1` is computed in `size_t` and narrowed to
`unsigned` where it initialises `j` or is passed to `findValid`. -/
def findInBag (fuel : Nat) (pi : α) (csvMsg : Row α) (bag : List (Row α)) (val : α) :
    Except Fault Nat :=
  match vecAt bag 0 with
  | .error e => .error e
  | .ok first =>
    if val ≤ first.time then findValid fuel pi csvMsg bag 0
    else
      match vecAt bag ((bag.length + 18446744073709551616 - 1) % 18446744073709551616) with
      | .error e => .error e
      | .ok last =>
        if val ≥ last.time then
          findValid fuel pi csvMsg bag
            ((bag.length + 18446744073709551616 - 1) % 18446744073709551616 % 4294967296)
        else
          findInBagLoop fuel pi csvMsg bag val fuel 0
            ((bag.length + 18446744073709551616 - 1) % 18446744073709551616 % 4294967296) 0

/-- The variables the first loop of `main` (lines 121-147) updates: `errorVec`, the
two running totals, and the diagnostics printed for the samples that were not
found (sample time and `bagMsgIndex`). -/
structure ErrorState (α : Type) where
  errorVec : List (ErrorRow α)
  positionErrorTotal : α
  orientationErrorTotal : Dbl α
  notFound : List (α × Nat)
  deriving DecidableEq, Repr

/-- The state before the first loop of `main`. -/
def ErrorState.init : ErrorState α :=
  { errorVec := [], positionErrorTotal := 0, orientationErrorTotal := .num 0, notFound := [] }

/-- The body of the first loop of `main` for one `csvMsg` (lines 122-146). -/
def errorStep (fuel : Nat) (pi : α) (sqrt : α → α) (bagVec : List (Row α))
    (st : ErrorState α) (csvMsg : Row α) : Except Fault (ErrorState α) :=
  match findInBag fuel pi csvMsg bagVec csvMsg.time with
  | .error e => .error e
  | .ok bagMsgIndex =>
    match vecAt bagVec bagMsgIndex with
    | .error e => .error e
    | .ok b =>
      if b.time = csvMsg.time then
        let positionError := sqrt ((csvMsg.x - b.x) ^ 2 + (csvMsg.y - b.y) ^ 2)
        let orientationError := angularError pi csvMsg.yaw b.yaw
        .ok { errorVec := st.errorVec ++ [⟨b.time, positionError, orientationError⟩]
              positionErrorTotal := st.positionErrorTotal + positionError
              orientationErrorTotal := Dbl.add st.orientationErrorTotal orientationError
              notFound := st.notFound }
      else
        .ok { errorVec := st.errorVec
              positionErrorTotal := st.positionErrorTotal
              orientationErrorTotal := st.orientationErrorTotal
              notFound := st.notFound ++ [(csvMsg.time, bagMsgIndex)] }

/-- The first loop of `main`: `for (auto csvMsg : csvVec)`. -/
def errorLoop (fuel : Nat) (pi : α) (sqrt : α → α) (bagVec : List (Row α)) :
    List (Row α) → ErrorState α → Except Fault (ErrorState α)
  | [], st => .ok st
  | csvMsg :: rest, st =>
    match errorStep fuel pi sqrt bagVec st csvMsg with
    | .error e => .error e
    | .ok st1 => errorLoop fuel pi sqrt bagVec rest st1

/-- Value of `positionErrorMean` (line 149). -/
def positionErrorMean (st : ErrorState α) : Dbl α :=
  Dbl.div (.num st.positionErrorTotal) (.num (st.errorVec.length : α))

/-- Value of `orientationErrorMean` (line 150). -/
def orientationErrorMean (st : ErrorState α) : Dbl α :=
  Dbl.div st.orientationErrorTotal (.num (st.errorVec.length : α))

/-- The loop of lines 156-159, which adds the squares of the errors to
`positionErrorSD` and `orientationErrorSD`. -/
def sdLoop : List (ErrorRow α) → α × Dbl α → α × Dbl α
  | [], acc => acc
  | e :: rest, acc =>
    sdLoop rest (acc.1 + e.positionError ^ 2, Dbl.add acc.2 (Dbl.pow2 e.orientationError))

/-- Value of `positionErrorSD` after line 163. -/
def positionErrorSD (sqrt : α → α) (errorVec : List (ErrorRow α)) : Dbl α :=
  Dbl.sqrt sqrt (Dbl.div (.num (sdLoop errorVec (0, .num 0)).1) (.num (errorVec.length : α)))

/-- Value of `orientationErrorSD` after line 164. -/
def orientationErrorSD (sqrt : α → α) (errorVec : List (ErrorRow α)) : Dbl α :=
  Dbl.sqrt sqrt (Dbl.div (sdLoop errorVec (0, .num 0)).2 (.num (errorVec.length : α)))

/-- The variables the outlier loop of `main` (lines 175-200) updates.  A row of
`outlierVec` is the pair of its two columns `indexInErrorVecIndex` and
`outlierIdentifierIndex`. -/
structure OutlierState (α : Type) where
  outlierVec : List (Nat × Nat)
  positionErrorMeanOutliers : α
  positionErrorMeanCount : Nat
  orientationErrorMeanOutliers : Dbl α
  orientationErrorMeanCount : Nat
  deriving DecidableEq, Repr

/-- The state before the outlier loop (lines 167-172). -/
def OutlierState.init : OutlierState α :=
  { outlierVec := [], positionErrorMeanOutliers := 0, positionErrorMeanCount := 0,
    orientationErrorMeanOutliers := .num 0, orientationErrorMeanCount := 0 }

/-- Value of `positionErrorZScore` (line 176). -/
def positionErrorZScore (posMean posSD : Dbl α) (e : ErrorRow α) : Dbl α :=
  Dbl.div (Dbl.sub (.num e.positionError) posMean) posSD

/-- Value of `orientationErrorZScore` (line 177). -/
def orientationErrorZScore (oriMean oriSD : Dbl α) (e : ErrorRow α) : Dbl α :=
  Dbl.div (Dbl.sub e.orientationError oriMean) oriSD

/-- The body of the outlier loop for the entry `e = errorVec.at(i)` (lines 176-199). -/
def outlierStep (posMean oriMean posSD oriSD : Dbl α) (i : Nat) (e : ErrorRow α)
    (st : OutlierState α) : OutlierState α :=
  let pz := positionErrorZScore posMean posSD e
  let oz := orientationErrorZScore oriMean oriSD e
  if Dbl.gt (Dbl.abs pz) (.num zScoreSignificanceLevel) ||
      Dbl.gt (Dbl.abs oz) (.num zScoreSignificanceLevel) then
    if Dbl.gt (Dbl.abs pz) (.num zScoreSignificanceLevel) &&
        Dbl.gt (Dbl.abs oz) (.num zScoreSignificanceLevel) then
      { st with outlierVec := st.outlierVec ++ [(i, outlierAtBoth)] }
    else if Dbl.gt (Dbl.abs pz) (.num zScoreSignificanceLevel) then
      { st with
        outlierVec := st.outlierVec ++ [(i, outlierAtPosition)]
        orientationErrorMeanCount := st.orientationErrorMeanCount + 1
        orientationErrorMeanOutliers := Dbl.add st.orientationErrorMeanOutliers e.orientationError }
    else
      { st with
        outlierVec := st.outlierVec ++ [(i, outlierAtOrientation)]
        positionErrorMeanCount := st.positionErrorMeanCount + 1
        positionErrorMeanOutliers := st.positionErrorMeanOutliers + e.positionError }
  else
    { st with
      positionErrorMeanCount := st.positionErrorMeanCount + 1
      orientationErrorMeanCount := st.orientationErrorMeanCount + 1
      positionErrorMeanOutliers := st.positionErrorMeanOutliers + e.positionError
      orientationErrorMeanOutliers := Dbl.add st.orientationErrorMeanOutliers e.orientationError }

/-- The outlier loop from index `i` on; the list holds `errorVec.at(i)` and the
entries after it. -/
def outlierLoop (posMean oriMean posSD oriSD : Dbl α) :
    List (ErrorRow α) → Nat → OutlierState α → OutlierState α
  | [], _, st => st
  | e :: rest, i, st =>
    outlierLoop posMean oriMean posSD oriSD rest (i + 1)
      (outlierStep posMean oriMean posSD oriSD i e st)

/-- The outlier loop of `main` run on the state the first loop left. -/
def outliers (sqrt : α → α) (st : ErrorState α) : OutlierState α :=
  outlierLoop (positionErrorMean st) (orientationErrorMean st)
    (positionErrorSD sqrt st.errorVec) (orientationErrorSD sqrt st.errorVec)
    st.errorVec 0 OutlierState.init

/-- Final value of `positionErrorMeanOutliers` (line 202). -/
def positionErrorMeanOutliers (sqrt : α → α) (st : ErrorState α) : Dbl α :=
  Dbl.div (.num (outliers sqrt st).positionErrorMeanOutliers)
    (.num ((outliers sqrt st).positionErrorMeanCount : α))

/-- Final value of `orientationErrorMeanOutliers` (line 203). -/
def orientationErrorMeanOutliers (sqrt : α → α) (st : ErrorState α) : Dbl α :=
  Dbl.div (outliers sqrt st).orientationErrorMeanOutliers
    (.num ((outliers sqrt st).orientationErrorMeanCount : α))

/-- The count `csvVec.size() - errorVec.size()` that `main` reports as the entries
it failed to find (lines 237 and 255), computed in `size_t`. -/
def entriesNotFound (csvVec : List (Row α)) (st : ErrorState α) : Nat :=
  (csvVec.length + 18446744073709551616 - st.errorVec.length % 18446744073709551616)
    % 18446744073709551616

/-- The loop of lines 299-302, which writes one record per row of `errorVec` to the
graph file: the time less `startingTime` and the two errors.  The records written
so far are `out`. -/
def graphLoop (startingTime : α) :
    List (ErrorRow α) → List (α × α × Dbl α) → List (α × α × Dbl α)
  | [], out => out
  | vec :: rest, out =>
    graphLoop startingTime rest
      (out ++ [(vec.time - startingTime, vec.positionError, vec.orientationError)])

/-- The records `main` writes to the graph file (lines 298-302);
`errorVec.at(0)` fails on an empty `errorVec`. -/
def graphData (errorVec : List (ErrorRow α)) : Except Fault (List (α × α × Dbl α)) :=
  match vecAt errorVec 0 with
  | .error e => .error e
  | .ok first => .ok (graphLoop first.time errorVec [])

/-- Constant `std::string::npos`, the greatest `size_t`. -/
def npos : Nat := 18446744073709551615

/-- The greatest position from `i` on of a character that satisfies `p`, and `acc`
when there is none; `i` is the position of the head of the list. -/
def lastPosition (p : Char → Bool) : List Char → Nat → Nat → Nat
  | [], _, acc => acc
  | c :: cs, i, acc => lastPosition p cs (i + 1) (if p c then i else acc)

/-- Library function `std::string::find_last_of(chars)`: the position of the last
character of `s` that occurs in `chars`, or `npos`. -/
def find_last_of (s chars : List Char) : Nat :=
  lastPosition (fun c => chars.contains c) s 0 npos

/-- Library function `std::string::rfind(c)`: the position of the last occurrence of
`c` in `s`, or `npos`. -/
def rfind (s : List Char) (c : Char) : Nat :=
  lastPosition (fun d => d == c) s 0 npos

/-- Library function `std::string::substr(pos, count)`: it throws
`std::out_of_range` when `pos` exceeds the size, and returns at most `count`
characters from position `pos` on otherwise. -/
def substr (s : List Char) (pos count : Nat) : Except Fault (List Char) :=
  if pos > s.length then .error .outOfRange else .ok ((s.drop pos).take count)

/-- Function `getBagName` (lines 315-319).  `find_last_of("/") + 1` is computed in
`size_t`; a `substr` with one argument has the count `npos`. -/
def getBagName (full_path : List Char) : Except Fault (List Char) :=
  match substr full_path
      ((find_last_of full_path ['/'] + 1) % 18446744073709551616) npos with
  | .error e => .error e
  | .ok file_name => substr file_name 0 (rfind file_name '.')

/-! ## Definitions that follow the words of the specification -/

/-- The logged sample aligned with the reference sample `r`, when `r` is matched:
`idx = align(logged, r)` and `logged[idx].time` equals `r.time` exactly. -/
def alignedSample (fuel : Nat) (pi : α) (bag : List (Row α)) (r : Row α) : Option (Row α) :=
  match findInBag fuel pi r bag r.time with
  | .error _ => none
  | .ok idx =>
    match bag[idx]? with
    | none => none
    | some l => if l.time = r.time then some l else none

/-- The error sample of a reference sample `r` and its aligned logged sample `l`
(spec 4.3): the logged time, the Euclidean distance and the angular error. -/
def specErrorSample (pi : α) (sqrt : α → α) (r l : Row α) : ErrorRow α :=
  { time := l.time
    positionError := sqrt ((r.x - l.x) ^ 2 + (r.y - l.y) ^ 2)
    orientationError := angularError pi r.yaw l.yaw }

/-- The error sequence of spec 4.3: one error sample per matched reference sample,
in the order of the reference series. -/
def computeErrors (fuel : Nat) (pi : α) (sqrt : α → α) (bag csvVec : List (Row α)) :
    List (ErrorRow α) :=
  csvVec.filterMap (fun r => (alignedSample fuel pi bag r).map (specErrorSample pi sqrt r))

/-- The population standard deviation in the words of the specification:
`sqrt((1/n) * sum_i (x_i - mean)^2)` with `mean = (sum_i x_i) / n`. -/
def populationSD (sqrt : α → α) (xs : List α) : α :=
  sqrt (1 / (xs.length : α) * (xs.map (fun v => (v - xs.sum / (xs.length : α)) ^ 2)).sum)

/-- The classification of spec 4.4, step 3, from the two tests `|zPos| > 3` and
`|zOri| > 3`. -/
def classify (zPosExceeds zOriExceeds : Bool) : OutlierKind :=
  match zPosExceeds, zOriExceeds with
  | true, true => .both
  | true, false => .positionOnly
  | false, true => .orientationOnly
  | false, false => .inlier

/-- The kind of an error sample for given means and standard deviations: its
z-scores `(value - mean) / standardDeviation` against the threshold 3. -/
def kindOf (posMean oriMean posSD oriSD : Dbl α) (e : ErrorRow α) : OutlierKind :=
  classify
    (Dbl.gt (Dbl.abs (Dbl.div (Dbl.sub (.num e.positionError) posMean) posSD)) (.num 3))
    (Dbl.gt (Dbl.abs (Dbl.div (Dbl.sub e.orientationError oriMean) oriSD)) (.num 3))

/-- The sum of a list of doubles, from the left, starting at 0. -/
def Dbl.sum (xs : List (Dbl α)) : Dbl α := xs.foldl Dbl.add (.num 0)

/-- The inlier-only position mean of the specification: the sum of `positionError`
over the samples classified inlier or `OrientationOnly`, divided by their number. -/
def inlierOnlyPositionMean (kind : ErrorRow α → OutlierKind) (es : List (ErrorRow α)) :
    Dbl α :=
  Dbl.div
    (.num ((es.filter (fun e => kind e = .inlier ∨ kind e = .orientationOnly)).map
      (fun e => e.positionError)).sum)
    (.num ((es.filter (fun e => kind e = .inlier ∨ kind e = .orientationOnly)).length : α))

/-- The inlier-only orientation mean of the specification: the sum of
`orientationError` over the samples classified inlier or `PositionOnly`, divided by
their number. -/
def inlierOnlyOrientationMean (kind : ErrorRow α → OutlierKind) (es : List (ErrorRow α)) :
    Dbl α :=
  Dbl.div
    (Dbl.sum ((es.filter (fun e => kind e = .inlier ∨ kind e = .positionOnly)).map
      (fun e => e.orientationError)))
    (.num ((es.filter (fun e => kind e = .inlier ∨ kind e = .positionOnly)).length : α))

/-! ## Concrete series and states -/

/-- The value of `M_PI` as a double, which is a rational number. -/
def M_PI : ℚ := 884279719003555 / 281474976710656

/-- A row with the given time and yaw at the origin. -/
def rowAt (t yaw : α) : Row α := { time := t, x := 0, y := 0, yaw := .num yaw }

/-- An error sample with the same value in both error columns. -/
def errorAt (t v : α) : ErrorRow α :=
  { time := t, positionError := v, orientationError := .num v }

/-- A logged series of 25 rows with the timestamps 1, 2, ..., 25. -/
def series25 : List (Row α) :=
  [rowAt 1 0, rowAt 2 0, rowAt 3 0, rowAt 4 0, rowAt 5 0, rowAt 6 0, rowAt 7 0, rowAt 8 0,
   rowAt 9 0, rowAt 10 0, rowAt 11 0, rowAt 12 0, rowAt 13 0, rowAt 14 0, rowAt 15 0,
   rowAt 16 0, rowAt 17 0, rowAt 18 0, rowAt 19 0, rowAt 20 0, rowAt 21 0, rowAt 22 0,
   rowAt 23 0, rowAt 24 0, rowAt 25 0]

/-- A logged series of 21 rows in which the rows at indices 10 and 11 share the
timestamp 10; the row at index 10 has the yaw 0, the row at index 11 the yaw 1. -/
def seriesDup : List (Row α) :=
  [rowAt 0 0, rowAt 1 0, rowAt 2 0, rowAt 3 0, rowAt 4 0, rowAt 5 0, rowAt 6 0, rowAt 7 0,
   rowAt 8 0, rowAt 9 0, rowAt 10 0, rowAt 10 1, rowAt 12 0, rowAt 13 0, rowAt 14 0,
   rowAt 15 0, rowAt 16 0, rowAt 17 0, rowAt 18 0, rowAt 19 0, rowAt 20 0]

/-- A logged series of 21 rows in which the rows at indices 10 and 11 share the
timestamp 10; the yaw of the row at index 10 is NaN, that of the row at index 11 is 1. -/
def seriesNaN : List (Row α) :=
  [rowAt 0 0, rowAt 1 0, rowAt 2 0, rowAt 3 0, rowAt 4 0, rowAt 5 0, rowAt 6 0, rowAt 7 0,
   rowAt 8 0, rowAt 9 0, { time := 10, x := 0, y := 0, yaw := .nan }, rowAt 10 1, rowAt 12 0,
   rowAt 13 0, rowAt 14 0, rowAt 15 0, rowAt 16 0, rowAt 17 0, rowAt 18 0, rowAt 19 0,
   rowAt 20 0]

/-- The reference series of the end-to-end scenario of the specification, with a
fourth sample whose timestamp is not logged. -/
def scenarioReference : List (Row α) :=
  [{ time := 0, x := 0, y := 0, yaw := .num 0 }, { time := 1, x := 1, y := 0, yaw := .num 0 },
   { time := 2, x := 0, y := 0, yaw := .num (314 / 100) },
   { time := 5 / 2, x := 0, y := 0, yaw := .num 0 }]

/-- The logged series of the end-to-end scenario of the specification. -/
def scenarioLogged : List (Row α) :=
  [{ time := 0, x := 0, y := 0, yaw := .num 0 }, { time := 1, x := 1, y := 0, yaw := .num 0 },
   { time := 2, x := 0, y := 0, yaw := .num (-(314 / 100)) }]

/-- A reference series of two samples, each at distance 1 from the logged sample
with its timestamp in `sdLogged`. -/
def sdReference : List (Row α) :=
  [{ time := 0, x := 1, y := 0, yaw := .num 0 }, { time := 1, x := 1, y := 0, yaw := .num 0 }]

/-- A logged series of two samples at the origin. -/
def sdLogged : List (Row α) :=
  [{ time := 0, x := 0, y := 0, yaw := .num 0 }, { time := 1, x := 0, y := 0, yaw := .num 0 }]

/-- The error sequence of `sdReference` against `sdLogged`: both position errors
are 1. -/
def sdErrors : List (ErrorRow α) :=
  [{ time := 0, positionError := 1, orientationError := .num 0 },
   { time := 1, positionError := 1, orientationError := .num 0 }]

/-- The state after the first loop of `main` for thirteen matched samples with the
errors 1.4, 0.1, 0.1, ..., 0.1: the mean is 0.2 and the root of the mean square is
0.4, so the z-scores of the first sample are exactly 3. -/
def boundaryState : ErrorState α :=
  { errorVec := [errorAt 0 (14 / 10), errorAt 1 (1 / 10), errorAt 2 (1 / 10),
      errorAt 3 (1 / 10), errorAt 4 (1 / 10), errorAt 5 (1 / 10), errorAt 6 (1 / 10),
      errorAt 7 (1 / 10), errorAt 8 (1 / 10), errorAt 9 (1 / 10), errorAt 10 (1 / 10),
      errorAt 11 (1 / 10), errorAt 12 (1 / 10)]
    positionErrorTotal := 26 / 10
    orientationErrorTotal := .num (26 / 10)
    notFound := [] }

/-- A logged series of 28 rows with the timestamps 0, 1, ..., 16, 17, 17, 17, 20,
..., 27: the rows at the indices 17, 18 and 19 share the timestamp 17 and have the
yaws 0, 1 and 2. -/
def series28 : List (Row α) :=
  [rowAt 0 0, rowAt 1 0, rowAt 2 0, rowAt 3 0, rowAt 4 0, rowAt 5 0, rowAt 6 0, rowAt 7 0,
   rowAt 8 0, rowAt 9 0, rowAt 10 0, rowAt 11 0, rowAt 12 0, rowAt 13 0, rowAt 14 0,
   rowAt 15 0, rowAt 16 0, rowAt 17 0, rowAt 17 1, rowAt 17 2, rowAt 20 0, rowAt 21 0,
   rowAt 22 0, rowAt 23 0, rowAt 24 0, rowAt 25 0, rowAt 26 0, rowAt 27 0]

end Embedding

section Lemmas

variable {α : Type} [LinearOrderedField α]

theorem vecAt_of_get {β : Type} {v : List β} {i : Nat} {b : β} (h : v[i]? = some b) :
    vecAt v i = .ok b := by
  simp [vecAt, h]

theorem vecAt_ok_iff {β : Type} {v : List β} {i : Nat} {b : β} :
    vecAt v i = .ok b ↔ v[i]? = some b := by
  unfold vecAt
  cases h : v[i]? <;> simp

theorem vecAt_of_lt {β : Type} {v : List β} {i : Nat} (h : i < v.length) :
    vecAt v i = .ok v[i] := by
  simp [vecAt, List.getElem?_eq_getElem h]

/-- Invariant rule for the `for` loop of `findValid`: an invariant `Inv i bestIndex` that
survives a skipped index and a taken index holds at the exit, and the loop returns. -/
theorem findValidLoop_inv (pi : α) (csvMsg : Row α) (bag : List (Row α)) (hi : Nat)
    (Inv : Nat → Nat → Prop)
    (hhi : hi < bag.length) (hwrap : hi + 1 < 4294967296)
    (hbound : ∀ i b, Inv i b → b < bag.length)
    (hskip : ∀ i b bi, i ≤ hi → Inv i b → bag[i]? = some bi →
      (bi.time ≠ csvMsg.time ∨ bi.yaw.isnan = true) → Inv (i + 1) b)
    (htake : ∀ i b bi bb, i ≤ hi → Inv i b → bag[i]? = some bi → bag[b]? = some bb →
      bi.time = csvMsg.time → bi.yaw.isnan = false →
      Inv (i + 1) (if Dbl.lt (angularError pi bi.yaw csvMsg.yaw)
          (.num (((if bb.yaw.isnan then i else b : Nat)) : α)) then i
        else (if bb.yaw.isnan then i else b))) :
    ∀ fuel i b, i ≤ hi + 1 → hi + 2 ≤ fuel + i → Inv i b →
      ∃ r, findValidLoop pi csvMsg bag hi fuel i b = .ok r ∧ Inv (hi + 1) r := by
  intro fuel
  induction fuel with
  | zero =>
    intro i b h1 h2 _
    omega
  | succ fuel ih =>
    intro i b h1 h2 hinv
    unfold findValidLoop
    by_cases hle : i ≤ hi
    · have hil : i < bag.length := by omega
      have hmod : (i + 1) % 4294967296 = i + 1 := Nat.mod_eq_of_lt (by omega)
      have hbi : bag[i]? = some bag[i] := List.getElem?_eq_getElem hil
      have hbl : b < bag.length := hbound i b hinv
      have hbb : bag[b]? = some bag[b] := List.getElem?_eq_getElem hbl
      rw [if_pos hle, vecAt_of_get hbi, hmod]
      by_cases ht : bag[i].time = csvMsg.time
      · by_cases hn : bag[i].yaw.isnan = true
        · simp only [ht, hn, ne_eq, not_true_eq_false, if_false, Bool.not_true]
          exact ih (i + 1) b (by omega) (by omega) (hskip i b _ hle hinv hbi (Or.inr hn))
        · have hn2 : bag[i].yaw.isnan = false := by simpa using hn
          have hb1 : (if bag[b].yaw.isnan = true then i else b) < bag.length := by
            split <;> assumption
          simp only [ht, hn2, ne_eq, not_true_eq_false, if_false, Bool.not_false, if_true,
            vecAt_of_get hbb, vecAt_of_lt hb1]
          exact ih (i + 1) _ (by omega) (by omega) (htake i b _ _ hle hinv hbi hbb ht hn2)
      · simp only [ne_eq, ht, not_false_eq_true, if_true]
        exact ih (i + 1) b (by omega) (by omega) (hskip i b _ hle hinv hbi (Or.inl ht))
    · have : i = hi + 1 := by omega
      subst this
      rw [if_neg hle]
      exact ⟨b, rfl, hinv⟩

/-- With fewer than ten rows before it, or fewer than eleven from it on, the
candidate is returned as it is. -/
theorem findValid_of_not_window (fuel : Nat) (pi : α) (csvMsg : Row α) (bag : List (Row α))
    (index : Nat) (hlen : bag.length < 2147483648) (hidx : index < bag.length)
    (h : ¬ (10 ≤ index ∧ index + 10 < bag.length)) :
    findValid fuel pi csvMsg bag index = .ok index := by
  unfold findValid msgSearchRadius
  rw [if_neg]
  intro hg
  apply h
  omega

/-- With ten rows on both sides of the candidate the window scan runs over
`index - 10 .. index + 10`. -/
theorem findValid_of_window (fuel : Nat) (pi : α) (csvMsg : Row α) (bag : List (Row α))
    (index : Nat) (hlen : bag.length < 2147483648)
    (h : 10 ≤ index ∧ index + 10 < bag.length) :
    findValid fuel pi csvMsg bag index
      = findValidLoop pi csvMsg bag (index + 10) fuel (index - 10) index := by
  unfold findValid msgSearchRadius
  rw [if_pos (by omega)]
  congr 1
  omega

/-- What `findValid` can return: the candidate itself, or an index of the window
whose time is the sample time and whose yaw is not NaN. -/
theorem findValid_result (fuel : Nat) (pi : α) (csvMsg : Row α) (bag : List (Row α))
    (index : Nat) (hlen : bag.length < 2147483648) (hidx : index < bag.length)
    (hfuel : 22 ≤ fuel) :
    ∃ r, findValid fuel pi csvMsg bag index = .ok r ∧
      (r = index ∨ (10 ≤ index ∧ index + 10 < bag.length ∧ index ≤ r + 10 ∧ r ≤ index + 10 ∧
        ∃ row, bag[r]? = some row ∧ row.time = csvMsg.time ∧ row.yaw.isnan = false)) := by
  by_cases h : 10 ≤ index ∧ index + 10 < bag.length
  · rw [findValid_of_window fuel pi csvMsg bag index hlen h]
    have key := findValidLoop_inv pi csvMsg bag (index + 10)
      (fun i b => index ≤ i + 10 ∧ i ≤ index + 11 ∧ (b = index ∨ (index ≤ b + 10 ∧ b < i ∧
        ∃ row, bag[b]? = some row ∧ row.time = csvMsg.time ∧ row.yaw.isnan = false)))
      h.2 (by omega)
      (by
        rintro i b ⟨_, _, hb | ⟨_, h2, _⟩⟩
        · omega
        · omega)
      (by
        rintro i b bi hi ⟨h0, h00, hb | ⟨h1, h2, h4⟩⟩ _ _
        · exact ⟨by omega, by omega, Or.inl hb⟩
        · exact ⟨by omega, by omega, Or.inr ⟨h1, by omega, h4⟩⟩)
      (by
        rintro i b bi bb hi ⟨h0, h00, hinv⟩ hbi hbb ht hn
        refine ⟨by omega, by omega, ?_⟩
        have hI : index ≤ i + 10 ∧ i < i + 1 ∧
            ∃ row, bag[i]? = some row ∧ row.time = csvMsg.time ∧ row.yaw.isnan = false :=
          ⟨h0, by omega, bi, hbi, ht, hn⟩
        have hB : b = index ∨ (index ≤ b + 10 ∧ b < i + 1 ∧
            ∃ row, bag[b]? = some row ∧ row.time = csvMsg.time ∧ row.yaw.isnan = false) := by
          rcases hinv with hb | ⟨h1, h2, h4⟩
          · exact Or.inl hb
          · exact Or.inr ⟨h1, by omega, h4⟩
        split_ifs
        · exact Or.inr hI
        · exact Or.inr hI
        · exact Or.inr hI
        · exact hB)
      fuel (index - 10) index (by omega) (by omega) ⟨by omega, by omega, Or.inl rfl⟩
    obtain ⟨r, hr, _, _, hinv⟩ := key
    refine ⟨r, hr, ?_⟩
    rcases hinv with hb | ⟨h1, h2, h4⟩
    · exact Or.inl hb
    · exact Or.inr ⟨h.1, h.2, h1, by omega, h4⟩
  · exact ⟨index, findValid_of_not_window fuel pi csvMsg bag index hlen hidx h, Or.inl rfl⟩

/-- Invariant rule for the `while` loop of `findInBag`: `Inv i j mid` is kept by both
assignments, and `Post` holds of the result of either `return`. -/
theorem findInBagLoop_post (fuel : Nat) (pi : α) (csvMsg : Row α) (bag : List (Row α))
    (val : α) (Post : Except Fault Nat → Prop) (Inv : Nat → Nat → Nat → Prop)
    (hbound : ∀ i j mid, Inv i j mid → j < bag.length ∧ j < 2147483648)
    (hfound : ∀ i j mid row, Inv i j mid → i < j → bag[(i + j) / 2]? = some row →
      row.time = val → Post (findValid fuel pi csvMsg bag ((i + j) / 2)))
    (hgt : ∀ i j mid row, Inv i j mid → i < j → bag[(i + j) / 2]? = some row →
      val < row.time → Inv i ((i + j) / 2) ((i + j) / 2))
    (hlt : ∀ i j mid row, Inv i j mid → i < j → bag[(i + j) / 2]? = some row →
      row.time < val → Inv ((i + j) / 2 + 1) j ((i + j) / 2))
    (hexit : ∀ i j mid, Inv i j mid → ¬ i < j → Post (findValid fuel pi csvMsg bag mid)) :
    ∀ n i j mid, j - i < n → Inv i j mid →
      Post (findInBagLoop fuel pi csvMsg bag val n i j mid) := by
  intro n
  induction n with
  | zero =>
    intro i j mid h1 hinv
    omega
  | succ n ih =>
    intro i j mid h1 hinv
    unfold findInBagLoop
    by_cases hij : i < j
    · obtain ⟨hj1, hj2⟩ := hbound i j mid hinv
      have hmod : (i + j) % 4294967296 = i + j := Nat.mod_eq_of_lt (by omega)
      have hm : (i + j) / 2 < bag.length := by omega
      have hmod2 : ((i + j) / 2 + 1) % 4294967296 = (i + j) / 2 + 1 :=
        Nat.mod_eq_of_lt (by omega)
      have hrow : bag[(i + j) / 2]? = some bag[(i + j) / 2] := List.getElem?_eq_getElem hm
      rw [if_pos hij]
      simp only [hmod, hmod2, vecAt_of_get hrow]
      by_cases heq : bag[(i + j) / 2].time = val
      · rw [if_pos heq]
        exact hfound i j mid _ hinv hij hrow heq
      · rw [if_neg heq]
        by_cases hgt1 : bag[(i + j) / 2].time > val
        · rw [if_pos hgt1]
          exact ih i _ _ (by omega) (hgt i j mid _ hinv hij hrow hgt1)
        · rw [if_neg hgt1]
          have hlt1 : bag[(i + j) / 2].time < val :=
            lt_of_le_of_ne (not_lt.mp hgt1) heq
          exact ih _ j _ (by omega) (hlt i j mid _ hinv hij hrow hlt1)
    · rw [if_neg hij]
      exact hexit i j mid hinv hij

/-- The result of `findValid` on a candidate inside the series is inside the series. -/
theorem findValid_lt (fuel : Nat) (pi : α) (csvMsg : Row α) (bag : List (Row α))
    (index : Nat) (hlen : bag.length < 2147483648) (hidx : index < bag.length)
    (hfuel : 22 ≤ fuel) :
    ∃ r, findValid fuel pi csvMsg bag index = .ok r ∧ r < bag.length := by
  obtain ⟨r, hr, h⟩ := findValid_result fuel pi csvMsg bag index hlen hidx hfuel
  refine ⟨r, hr, ?_⟩
  rcases h with h | h
  · omega
  · omega

/-- A candidate whose time is the sample time is refined to an index whose time is
the sample time. -/
theorem findValid_time (fuel : Nat) (pi : α) (csvMsg : Row α) (bag : List (Row α))
    (index : Nat) (row : Row α) (hlen : bag.length < 2147483648)
    (hrow : bag[index]? = some row) (htime : row.time = csvMsg.time) (hfuel : 22 ≤ fuel) :
    ∃ r row1, findValid fuel pi csvMsg bag index = .ok r ∧ bag[r]? = some row1 ∧
      row1.time = csvMsg.time := by
  have hidx : index < bag.length := (List.getElem?_eq_some_iff.mp hrow).1
  obtain ⟨r, hr, h⟩ := findValid_result fuel pi csvMsg bag index hlen hidx hfuel
  rcases h with h | ⟨_, _, _, _, row1, h1, h2, _⟩
  · subst h
    exact ⟨r, row, hr, hrow, htime⟩
  · exact ⟨r, row1, hr, h1, h2⟩

/-- The three cases of `findInBag` on a non-empty series. -/
theorem findInBag_cases (fuel : Nat) (pi : α) (csvMsg : Row α) (bag : List (Row α))
    (val : α) (first last : Row α) (hlen : bag.length < 2147483648)
    (hfirst : bag[0]? = some first) (hlast : bag[bag.length - 1]? = some last) :
    findInBag fuel pi csvMsg bag val
      = if val ≤ first.time then findValid fuel pi csvMsg bag 0
        else if val ≥ last.time then findValid fuel pi csvMsg bag (bag.length - 1)
        else findInBagLoop fuel pi csvMsg bag val fuel 0 (bag.length - 1) 0 := by
  have hpos : 0 < bag.length := (List.getElem?_eq_some_iff.mp hfirst).1
  have h1 : (bag.length + 18446744073709551616 - 1) % 18446744073709551616
      = bag.length - 1 := by omega
  have h2 : (bag.length - 1) % 4294967296 = bag.length - 1 := by omega
  unfold findInBag
  simp only [h1, h2, vecAt_of_get hfirst, vecAt_of_get hlast]

/-- On a non-empty series `findInBag` returns an index of the series, whatever the
order of the rows. -/
theorem findInBag_lt (fuel : Nat) (pi : α) (csvMsg : Row α) (bag : List (Row α))
    (val : α) (hne : bag ≠ []) (hlen : bag.length < 2147483648)
    (hfuel : bag.length + 22 ≤ fuel) :
    ∃ r, findInBag fuel pi csvMsg bag val = .ok r ∧ r < bag.length := by
  have hpos : 0 < bag.length := List.length_pos.mpr hne
  have hfirst : bag[0]? = some bag[0] := List.getElem?_eq_getElem hpos
  have hl : bag.length - 1 < bag.length := by omega
  have hlast : bag[bag.length - 1]? = some bag[bag.length - 1] := List.getElem?_eq_getElem hl
  rw [findInBag_cases fuel pi csvMsg bag val _ _ hlen hfirst hlast]
  split_ifs
  · exact findValid_lt fuel pi csvMsg bag 0 hlen hpos (by omega)
  · exact findValid_lt fuel pi csvMsg bag _ hlen hl (by omega)
  · exact findInBagLoop_post fuel pi csvMsg bag val
      (fun res => ∃ r, res = .ok r ∧ r < bag.length)
      (fun _ j mid => j < bag.length ∧ mid < bag.length)
      (fun i j mid h => ⟨h.1, by omega⟩)
      (fun i j mid row h hij _ _ =>
        findValid_lt fuel pi csvMsg bag _ hlen (by omega) (by omega))
      (fun i j mid row h hij _ _ => ⟨by omega, by omega⟩)
      (fun i j mid row h hij _ _ => ⟨h.1, by omega⟩)
      (fun i j mid h _ => findValid_lt fuel pi csvMsg bag _ hlen h.2 (by omega))
      fuel 0 (bag.length - 1) 0 (by omega) ⟨hl, hpos⟩

/-- In a series sorted by time, rows in index order have times in order. -/
theorem time_le_of_sorted {bag : List (Row α)}
    (hs : bag.Pairwise (fun a b => a.time ≤ b.time)) {i j : Nat} {a b : Row α}
    (hi : bag[i]? = some a) (hj : bag[j]? = some b) (hij : i ≤ j) : a.time ≤ b.time := by
  obtain ⟨hi1, hi2⟩ := List.getElem?_eq_some_iff.mp hi
  obtain ⟨hj1, hj2⟩ := List.getElem?_eq_some_iff.mp hj
  rcases Nat.eq_or_lt_of_le hij with h | h
  · subst h
    rw [← hi2, ← hj2]
  · rw [← hi2, ← hj2]
    exact List.pairwise_iff_getElem.mp hs i j hi1 hj1 h

/-- In a series sorted by time, a sample whose timestamp occurs in the series is
aligned with a row that has exactly this timestamp. -/
theorem findInBag_time (fuel : Nat) (pi : α) (csvMsg : Row α) (bag : List (Row α))
    (hs : bag.Pairwise (fun a b => a.time ≤ b.time)) (hlen : bag.length < 2147483648)
    (hfuel : bag.length + 22 ≤ fuel) (hex : ∃ row ∈ bag, row.time = csvMsg.time) :
    ∃ r row, findInBag fuel pi csvMsg bag csvMsg.time = .ok r ∧ bag[r]? = some row ∧
      row.time = csvMsg.time := by
  obtain ⟨rowk, hmem, hk⟩ := hex
  obtain ⟨k, hklt, hkrow⟩ := List.getElem_of_mem hmem
  have hkrow1 : bag[k]? = some rowk := by
    rw [List.getElem?_eq_getElem hklt, hkrow]
  have hpos : 0 < bag.length := by omega
  have hfirst : bag[0]? = some bag[0] := List.getElem?_eq_getElem hpos
  have hl : bag.length - 1 < bag.length := by omega
  have hlast : bag[bag.length - 1]? = some bag[bag.length - 1] := List.getElem?_eq_getElem hl
  rw [findInBag_cases fuel pi csvMsg bag _ _ _ hlen hfirst hlast]
  split_ifs with h1 h2
  · have h3 : bag[0].time ≤ rowk.time := time_le_of_sorted hs hfirst hkrow1 (by omega)
    exact findValid_time fuel pi csvMsg bag 0 _ hlen hfirst
      (le_antisymm (hk ▸ h3) h1) (by omega)
  · have h3 : rowk.time ≤ bag[bag.length - 1].time :=
      time_le_of_sorted hs hkrow1 hlast (by omega)
    exact findValid_time fuel pi csvMsg bag _ _ hlen hlast
      (le_antisymm h2 (hk ▸ h3)) (by omega)
  · have hk0 : 0 < k := by
      rcases Nat.eq_zero_or_pos k with h | h
      · subst h
        exfalso
        apply h1
        rw [← hk]
        exact time_le_of_sorted hs hkrow1 hfirst (le_refl 0)
      · exact h
    have hk1 : k < bag.length - 1 := by
      by_contra hcon
      have : k = bag.length - 1 := by omega
      subst this
      apply h2
      show bag[bag.length - 1].time ≤ csvMsg.time
      rw [← hk]
      exact time_le_of_sorted hs hlast hkrow1 (le_refl _)
    exact findInBagLoop_post fuel pi csvMsg bag csvMsg.time
      (fun res => ∃ r row, res = .ok r ∧ bag[r]? = some row ∧ row.time = csvMsg.time)
      (fun i j _ => j < bag.length ∧ ∃ k1 row1, i ≤ k1 ∧ k1 < j ∧ bag[k1]? = some row1 ∧
        row1.time = csvMsg.time)
      (fun i j mid h => ⟨h.1, by omega⟩)
      (fun i j mid row h hij hrow heq =>
        findValid_time fuel pi csvMsg bag _ row hlen hrow heq (by omega))
      (by
        rintro i j mid row ⟨hj, k1, row1, hik, hkj, hr1, ht1⟩ hij hrow hgt
        refine ⟨by omega, k1, row1, hik, ?_, hr1, ht1⟩
        by_contra hcon
        have := time_le_of_sorted hs hrow hr1 (by omega)
        rw [ht1] at this
        exact absurd hgt (not_lt.mpr this))
      (by
        rintro i j mid row ⟨hj, k1, row1, hik, hkj, hr1, ht1⟩ hij hrow hlt
        refine ⟨hj, k1, row1, ?_, hkj, hr1, ht1⟩
        by_contra hcon
        have := time_le_of_sorted hs hr1 hrow (by omega)
        rw [ht1] at this
        exact absurd hlt (not_lt.mpr this))
      (by
        rintro i j mid ⟨_, k1, _, hik, hkj, _, _⟩ hij
        omega)
      fuel 0 (bag.length - 1) 0 (by omega) ⟨hl, k, rowk, by omega, hk1, hkrow1, hk⟩

/-- In a series with strictly increasing times, two rows with the same time are at
the same index. -/
theorem index_eq_of_time_eq {bag : List (Row α)}
    (hs : bag.Pairwise (fun a b => a.time < b.time)) {i j : Nat} {a b : Row α}
    (hi : bag[i]? = some a) (hj : bag[j]? = some b) (h : a.time = b.time) : i = j := by
  obtain ⟨hi1, hi2⟩ := List.getElem?_eq_some_iff.mp hi
  obtain ⟨hj1, hj2⟩ := List.getElem?_eq_some_iff.mp hj
  rcases Nat.lt_trichotomy i j with hlt | heq | hgt
  · have := List.pairwise_iff_getElem.mp hs i j hi1 hj1 hlt
    rw [hi2, hj2, h] at this
    exact absurd this (lt_irrefl _)
  · exact heq
  · have := List.pairwise_iff_getElem.mp hs j i hj1 hi1 hgt
    rw [hi2, hj2, h] at this
    exact absurd this (lt_irrefl _)

/-- One pass of the body of the first loop of `main` over a non-empty logged series:
`findInBag` returns an index of the series, and the sample either adds one entry to
`errorVec` or one diagnostic. -/
theorem errorStep_run (fuel : Nat) (pi : α) (sqrt : α → α) (bag : List (Row α))
    (st : ErrorState α) (csvMsg : Row α) (hne : bag ≠ []) (hlen : bag.length < 2147483648)
    (hfuel : bag.length + 22 ≤ fuel) :
    ∃ idx b, findInBag fuel pi csvMsg bag csvMsg.time = .ok idx ∧ bag[idx]? = some b ∧
      errorStep fuel pi sqrt bag st csvMsg = .ok
        (if b.time = csvMsg.time then
          { errorVec := st.errorVec ++ [specErrorSample pi sqrt csvMsg b]
            positionErrorTotal :=
              st.positionErrorTotal + (specErrorSample pi sqrt csvMsg b).positionError
            orientationErrorTotal :=
              Dbl.add st.orientationErrorTotal (specErrorSample pi sqrt csvMsg b).orientationError
            notFound := st.notFound }
        else
          { errorVec := st.errorVec
            positionErrorTotal := st.positionErrorTotal
            orientationErrorTotal := st.orientationErrorTotal
            notFound := st.notFound ++ [(csvMsg.time, idx)] }) := by
  obtain ⟨idx, hidx, hlt⟩ := findInBag_lt fuel pi csvMsg bag csvMsg.time hne hlen hfuel
  have hb : bag[idx]? = some bag[idx] := List.getElem?_eq_getElem hlt
  refine ⟨idx, bag[idx], hidx, hb, ?_⟩
  unfold errorStep
  simp only [hidx, vecAt_of_get hb, specErrorSample]
  split_ifs <;> rfl

/-- The reference sample is matched exactly when `errorStep` adds an entry. -/
theorem alignedSample_of_run (fuel : Nat) (pi : α) (bag : List (Row α)) (csvMsg : Row α)
    (idx : Nat) (b : Row α) (hidx : findInBag fuel pi csvMsg bag csvMsg.time = .ok idx)
    (hb : bag[idx]? = some b) :
    alignedSample fuel pi bag csvMsg = if b.time = csvMsg.time then some b else none := by
  unfold alignedSample
  simp only [hidx, hb]

/-- The first loop of `main` on a non-empty logged series runs to its end; it appends
the error sequence of the specification to `errorVec`, and every reference sample
adds either an entry or a diagnostic. -/
theorem errorLoop_run (fuel : Nat) (pi : α) (sqrt : α → α) (bag : List (Row α))
    (hne : bag ≠ []) (hlen : bag.length < 2147483648) (hfuel : bag.length + 22 ≤ fuel) :
    ∀ (csvVec : List (Row α)) (st0 : ErrorState α),
      ∃ st, errorLoop fuel pi sqrt bag csvVec st0 = .ok st ∧
        st.errorVec = st0.errorVec ++ computeErrors fuel pi sqrt bag csvVec ∧
        st.errorVec.length + st.notFound.length
          = st0.errorVec.length + st0.notFound.length + csvVec.length := by
  intro csvVec
  induction csvVec with
  | nil =>
    intro st0
    exact ⟨st0, rfl, by simp [computeErrors], by simp⟩
  | cons csvMsg rest ih =>
    intro st0
    obtain ⟨idx, b, hidx, hb, hstep⟩ :=
      errorStep_run fuel pi sqrt bag st0 csvMsg hne hlen hfuel
    have hal := alignedSample_of_run fuel pi bag csvMsg idx b hidx hb
    unfold errorLoop
    rw [hstep]
    by_cases ht : b.time = csvMsg.time
    · rw [if_pos ht] at hal
      simp only [if_pos ht]
      obtain ⟨st, hst, h1, h2⟩ := ih
        { errorVec := st0.errorVec ++ [specErrorSample pi sqrt csvMsg b]
          positionErrorTotal :=
            st0.positionErrorTotal + (specErrorSample pi sqrt csvMsg b).positionError
          orientationErrorTotal :=
            Dbl.add st0.orientationErrorTotal (specErrorSample pi sqrt csvMsg b).orientationError
          notFound := st0.notFound }
      refine ⟨st, hst, ?_, ?_⟩
      · rw [h1]
        simp [computeErrors, List.filterMap_cons, hal]
      · rw [h2]
        simp only [List.length_append, List.length_cons, List.length_nil]
        omega
    · rw [if_neg ht] at hal
      simp only [if_neg ht]
      obtain ⟨st, hst, h1, h2⟩ := ih
        { errorVec := st0.errorVec
          positionErrorTotal := st0.positionErrorTotal
          orientationErrorTotal := st0.orientationErrorTotal
          notFound := st0.notFound ++ [(csvMsg.time, idx)] }
      refine ⟨st, hst, ?_, ?_⟩
      · rw [h1]
        simp [computeErrors, List.filterMap_cons, hal]
      · rw [h2]
        simp only [List.length_append, List.length_cons, List.length_nil]
        omega

/-- A matched reference sample is aligned with a logged row of exactly its time. -/
theorem alignedSample_time (fuel : Nat) (pi : α) (bag : List (Row α)) (r l : Row α)
    (h : alignedSample fuel pi bag r = some l) : l.time = r.time := by
  unfold alignedSample at h
  split at h
  · exact Option.noConfusion h
  · split at h
    · exact Option.noConfusion h
    · split_ifs at h with ht
      have hl := Option.some.inj h
      subst hl
      exact ht

/-- The times of the error sequence of the specification are the times of the matched
reference samples, in order. -/
theorem computeErrors_times (fuel : Nat) (pi : α) (sqrt : α → α) (bag : List (Row α)) :
    ∀ csvVec : List (Row α),
      (computeErrors fuel pi sqrt bag csvVec).map (fun e => e.time)
        = (csvVec.filter (fun r => (alignedSample fuel pi bag r).isSome)).map
            (fun r => r.time) := by
  intro csvVec
  induction csvVec with
  | nil => rfl
  | cons r rest ih =>
    unfold computeErrors at ih ⊢
    rw [List.filterMap_cons, List.filter_cons]
    cases hal : alignedSample fuel pi bag r with
    | none =>
      simp only [Option.map_none', Option.isSome_none, Bool.false_eq_true, if_false]
      exact ih
    | some l =>
      simp only [Option.map_some', Option.isSome_some, if_true, List.map_cons, ih]
      rw [show (specErrorSample pi sqrt r l).time = l.time from rfl,
        alignedSample_time fuel pi bag r l hal]

/-- Every position error of the error sequence of the specification is a value of
`sqrt`. -/
theorem computeErrors_position (fuel : Nat) (pi : α) (sqrt : α → α) (bag : List (Row α))
    (csvVec : List (Row α)) (e : ErrorRow α) (he : e ∈ computeErrors fuel pi sqrt bag csvVec) :
    ∃ r l, r ∈ csvVec ∧ alignedSample fuel pi bag r = some l ∧
      e = specErrorSample pi sqrt r l := by
  unfold computeErrors at he
  rw [List.mem_filterMap] at he
  obtain ⟨r, hr, hmap⟩ := he
  cases hal : alignedSample fuel pi bag r with
  | none =>
    rw [hal] at hmap
    exact Option.noConfusion hmap
  | some l =>
    rw [hal] at hmap
    exact ⟨r, l, hr, hal, (Option.some.inj hmap).symm⟩

/-- The body of the outlier loop, by the kind of the sample: a row in `outlierVec`
unless the sample is an inlier, the position error added unless the position z-score
exceeds the threshold, the orientation error added unless the orientation z-score
does. -/
theorem outlierStep_eq (posMean oriMean posSD oriSD : Dbl α) (i : Nat) (e : ErrorRow α)
    (st : OutlierState α) :
    outlierStep posMean oriMean posSD oriSD i e st =
      match kindOf posMean oriMean posSD oriSD e with
      | .inlier =>
        { outlierVec := st.outlierVec
          positionErrorMeanOutliers := st.positionErrorMeanOutliers + e.positionError
          positionErrorMeanCount := st.positionErrorMeanCount + 1
          orientationErrorMeanOutliers :=
            Dbl.add st.orientationErrorMeanOutliers e.orientationError
          orientationErrorMeanCount := st.orientationErrorMeanCount + 1 }
      | .positionOnly =>
        { outlierVec := st.outlierVec ++ [(i, outlierAtPosition)]
          positionErrorMeanOutliers := st.positionErrorMeanOutliers
          positionErrorMeanCount := st.positionErrorMeanCount
          orientationErrorMeanOutliers :=
            Dbl.add st.orientationErrorMeanOutliers e.orientationError
          orientationErrorMeanCount := st.orientationErrorMeanCount + 1 }
      | .orientationOnly =>
        { outlierVec := st.outlierVec ++ [(i, outlierAtOrientation)]
          positionErrorMeanOutliers := st.positionErrorMeanOutliers + e.positionError
          positionErrorMeanCount := st.positionErrorMeanCount + 1
          orientationErrorMeanOutliers := st.orientationErrorMeanOutliers
          orientationErrorMeanCount := st.orientationErrorMeanCount }
      | .both =>
        { outlierVec := st.outlierVec ++ [(i, outlierAtBoth)]
          positionErrorMeanOutliers := st.positionErrorMeanOutliers
          positionErrorMeanCount := st.positionErrorMeanCount
          orientationErrorMeanOutliers := st.orientationErrorMeanOutliers
          orientationErrorMeanCount := st.orientationErrorMeanCount } := by
  simp only [outlierStep, kindOf, positionErrorZScore, orientationErrorZScore,
    zScoreSignificanceLevel]
  rcases Bool.eq_false_or_eq_true
      (Dbl.gt (Dbl.abs (Dbl.div (Dbl.sub (.num e.positionError) posMean) posSD)) (.num 3))
    with hp | hp <;>
  rcases Bool.eq_false_or_eq_true
      (Dbl.gt (Dbl.abs (Dbl.div (Dbl.sub e.orientationError oriMean) oriSD)) (.num 3))
    with ho | ho <;>
  simp [hp, ho, classify]

/-- The rows of `outlierVec` after the outlier loop: the rows it had before, and for
every sample that is not an inlier one row with the index of the sample and the
identifier of its kind. -/
theorem outlierLoop_outlierVec (posMean oriMean posSD oriSD : Dbl α) :
    ∀ (es : List (ErrorRow α)) (i0 : Nat) (st0 : OutlierState α) (i id : Nat),
      (i, id) ∈ (outlierLoop posMean oriMean posSD oriSD es i0 st0).outlierVec ↔
        ((i, id) ∈ st0.outlierVec ∨ ∃ e, i0 ≤ i ∧ es[i - i0]? = some e ∧
          ((kindOf posMean oriMean posSD oriSD e = .positionOnly ∧ id = outlierAtPosition) ∨
            (kindOf posMean oriMean posSD oriSD e = .orientationOnly ∧
              id = outlierAtOrientation) ∨
            (kindOf posMean oriMean posSD oriSD e = .both ∧ id = outlierAtBoth))) := by
  intro es
  induction es with
  | nil =>
    intro i0 st0 i id
    simp [outlierLoop]
  | cons e rest ih =>
    intro i0 st0 i id
    unfold outlierLoop
    rw [ih (i0 + 1) _ i id, outlierStep_eq]
    constructor
    · rintro (h | ⟨e1, h1, h2, h3⟩)
      · cases hk : kindOf posMean oriMean posSD oriSD e <;> rw [hk] at h <;>
          simp only [List.mem_append, List.mem_singleton, Prod.mk.injEq] at h
        · exact Or.inl h
        · rcases h with h | ⟨h, h4⟩
          · exact Or.inl h
          · subst h
            exact Or.inr ⟨e, le_refl _, by simp, Or.inl ⟨hk, h4⟩⟩
        · rcases h with h | ⟨h, h4⟩
          · exact Or.inl h
          · subst h
            exact Or.inr ⟨e, le_refl _, by simp, Or.inr (Or.inl ⟨hk, h4⟩)⟩
        · rcases h with h | ⟨h, h4⟩
          · exact Or.inl h
          · subst h
            exact Or.inr ⟨e, le_refl _, by simp, Or.inr (Or.inr ⟨hk, h4⟩)⟩
      · refine Or.inr ⟨e1, by omega, ?_, h3⟩
        have : i - i0 = (i - (i0 + 1)) + 1 := by omega
        rw [this, List.getElem?_cons_succ]
        exact h2
    · rintro (h | ⟨e1, h1, h2, h3⟩)
      · left
        cases hk : kindOf posMean oriMean posSD oriSD e <;>
          simp only [List.mem_append, List.mem_singleton, Prod.mk.injEq]
        · exact h
        · exact Or.inl h
        · exact Or.inl h
        · exact Or.inl h
      · rcases Nat.eq_or_lt_of_le h1 with heq | hlt
        · subst heq
          simp only [Nat.sub_self, List.getElem?_cons_zero, Option.some.injEq] at h2
          subst h2
          left
          rcases h3 with ⟨hk, hid⟩ | ⟨hk, hid⟩ | ⟨hk, hid⟩ <;> rw [hk] <;>
            simp only [List.mem_append, List.mem_singleton, Prod.mk.injEq] <;>
            exact Or.inr ⟨trivial, hid⟩
        · right
          refine ⟨e1, by omega, ?_, h3⟩
          have : i - i0 = (i - (i0 + 1)) + 1 := by omega
          rw [this, List.getElem?_cons_succ] at h2
          exact h2

/-- The rows of `outlierVec` for the sample at index `i` of `errorVec`, by its kind. -/
theorem mem_outliers_iff (sqrt : α → α) (st : ErrorState α) (i : Nat) (e : ErrorRow α)
    (he : st.errorVec[i]? = some e) (id : Nat) :
    (i, id) ∈ (outliers sqrt st).outlierVec ↔
      ((kindOf (positionErrorMean st) (orientationErrorMean st)
            (positionErrorSD sqrt st.errorVec) (orientationErrorSD sqrt st.errorVec) e
          = .positionOnly ∧ id = outlierAtPosition) ∨
        (kindOf (positionErrorMean st) (orientationErrorMean st)
            (positionErrorSD sqrt st.errorVec) (orientationErrorSD sqrt st.errorVec) e
          = .orientationOnly ∧ id = outlierAtOrientation) ∨
        (kindOf (positionErrorMean st) (orientationErrorMean st)
            (positionErrorSD sqrt st.errorVec) (orientationErrorSD sqrt st.errorVec) e
          = .both ∧ id = outlierAtBoth)) := by
  unfold outliers
  rw [outlierLoop_outlierVec]
  constructor
  · rintro (h | ⟨e1, _, h2, h3⟩)
    · simp [OutlierState.init] at h
    · rw [Nat.sub_zero, he] at h2
      rw [Option.some.inj h2]
      exact h3
  · intro h
    exact Or.inr ⟨e, Nat.zero_le _, by rw [Nat.sub_zero]; exact he, h⟩

/-- The sums and counts the outlier loop keeps for the inlier-only means: the
position errors of the samples that are inliers or outliers in orientation only, and
the orientation errors of the samples that are inliers or outliers in position only. -/
theorem outlierLoop_sums (posMean oriMean posSD oriSD : Dbl α) :
    ∀ (es : List (ErrorRow α)) (i0 : Nat) (st0 : OutlierState α),
      (outlierLoop posMean oriMean posSD oriSD es i0 st0).positionErrorMeanOutliers
          = st0.positionErrorMeanOutliers +
            ((es.filter (fun e => kindOf posMean oriMean posSD oriSD e = .inlier ∨
              kindOf posMean oriMean posSD oriSD e = .orientationOnly)).map
                (fun e => e.positionError)).sum ∧
        (outlierLoop posMean oriMean posSD oriSD es i0 st0).positionErrorMeanCount
          = st0.positionErrorMeanCount +
            (es.filter (fun e => kindOf posMean oriMean posSD oriSD e = .inlier ∨
              kindOf posMean oriMean posSD oriSD e = .orientationOnly)).length ∧
        (outlierLoop posMean oriMean posSD oriSD es i0 st0).orientationErrorMeanOutliers
          = ((es.filter (fun e => kindOf posMean oriMean posSD oriSD e = .inlier ∨
              kindOf posMean oriMean posSD oriSD e = .positionOnly)).map
                (fun e => e.orientationError)).foldl Dbl.add st0.orientationErrorMeanOutliers ∧
        (outlierLoop posMean oriMean posSD oriSD es i0 st0).orientationErrorMeanCount
          = st0.orientationErrorMeanCount +
            (es.filter (fun e => kindOf posMean oriMean posSD oriSD e = .inlier ∨
              kindOf posMean oriMean posSD oriSD e = .positionOnly)).length := by
  intro es
  induction es with
  | nil =>
    intro i0 st0
    simp [outlierLoop]
  | cons e rest ih =>
    intro i0 st0
    unfold outlierLoop
    obtain ⟨h1, h2, h3, h4⟩ := ih (i0 + 1) (outlierStep posMean oriMean posSD oriSD i0 e st0)
    rw [h1, h2, h3, h4, outlierStep_eq]
    cases hk : kindOf posMean oriMean posSD oriSD e <;>
      simp [List.filter_cons, hk, add_assoc, Nat.add_assoc, Nat.add_comm 1]

/-- The loop that writes the graph file appends one record per row, in order. -/
theorem graphLoop_eq (startingTime : α) :
    ∀ (es : List (ErrorRow α)) (out : List (α × α × Dbl α)),
      graphLoop startingTime es out
        = out ++ es.map (fun vec =>
            (vec.time - startingTime, vec.positionError, vec.orientationError)) := by
  intro es
  induction es with
  | nil =>
    intro out
    simp [graphLoop]
  | cons e rest ih =>
    intro out
    unfold graphLoop
    rw [ih]
    simp

/-- The position `lastPosition` returns is the accumulator or a position of the
list. -/
theorem lastPosition_bound (p : Char → Bool) :
    ∀ (s : List Char) (i acc : Nat),
      lastPosition p s i acc = acc ∨
        (i ≤ lastPosition p s i acc ∧ lastPosition p s i acc < i + s.length) := by
  intro s
  induction s with
  | nil =>
    intro i acc
    exact Or.inl rfl
  | cons c cs ih =>
    intro i acc
    unfold lastPosition
    rcases ih (i + 1) (if p c = true then i else acc) with h | ⟨h1, h2⟩
    · rw [h]
      split_ifs
      · right
        simp
      · left
        rfl
    · right
      simp only [List.length_cons]
      omega

/-- One more unit of fuel does not change a result of the `for` loop of `findValid`. -/
theorem findValidLoop_mono (pi : α) (csvMsg : Row α) (bag : List (Row α)) (hi : Nat) :
    ∀ (fuel i b r : Nat), findValidLoop pi csvMsg bag hi fuel i b = .ok r →
      findValidLoop pi csvMsg bag hi (fuel + 1) i b = .ok r := by
  intro fuel
  induction fuel with
  | zero =>
    intro i b r h
    simp [findValidLoop] at h
  | succ fuel ih =>
    intro i b r h
    rw [findValidLoop] at h ⊢
    by_cases hle : i ≤ hi
    · rw [if_pos hle] at h ⊢
      cases hv : vecAt bag i with
      | error e =>
        rw [hv] at h
        simp at h
      | ok bi =>
        rw [hv] at h
        simp only at h ⊢
        by_cases ht : bi.time ≠ csvMsg.time
        · rw [if_pos ht] at h ⊢
          exact ih _ _ _ h
        · rw [if_neg ht] at h ⊢
          by_cases hn : (!bi.yaw.isnan) = true
          · rw [if_pos hn] at h ⊢
            cases hvb : vecAt bag b with
            | error e =>
              rw [hvb] at h
              simp at h
            | ok bb =>
              rw [hvb] at h
              simp only at h ⊢
              cases hvb1 : vecAt bag (if bb.yaw.isnan = true then i else b) with
              | error e =>
                rw [hvb1] at h
                simp at h
              | ok bb1 =>
                rw [hvb1] at h
                exact ih _ _ _ h
          · rw [if_neg hn] at h ⊢
            exact ih _ _ _ h
    · rw [if_neg hle] at h ⊢
      exact h

/-- More fuel does not change a result of `findValid`. -/
theorem findValid_mono (pi : α) (csvMsg : Row α) (bag : List (Row α)) (index : Nat) :
    ∀ (fuel r : Nat), findValid fuel pi csvMsg bag index = .ok r →
      findValid (fuel + 1) pi csvMsg bag index = .ok r := by
  intro fuel r h
  unfold findValid at h ⊢
  split_ifs at h ⊢
  · exact findValidLoop_mono pi csvMsg bag _ _ _ _ _ h
  · exact h

/-- One more unit of each fuel does not change a result of the `while` loop of
`findInBag`. -/
theorem findInBagLoop_mono (fuel : Nat) (pi : α) (csvMsg : Row α) (bag : List (Row α))
    (val : α) :
    ∀ (n i j mid r : Nat), findInBagLoop fuel pi csvMsg bag val n i j mid = .ok r →
      findInBagLoop (fuel + 1) pi csvMsg bag val (n + 1) i j mid = .ok r := by
  intro n
  induction n with
  | zero =>
    intro i j mid r h
    simp [findInBagLoop] at h
  | succ n ih =>
    intro i j mid r h
    rw [findInBagLoop] at h ⊢
    by_cases hij : i < j
    · rw [if_pos hij] at h ⊢
      simp only at h ⊢
      cases hv : vecAt bag ((i + j) % 4294967296 / 2) with
      | error e =>
        rw [hv] at h
        simp at h
      | ok m =>
        rw [hv] at h
        simp only at h ⊢
        by_cases heq : m.time = val
        · rw [if_pos heq] at h ⊢
          exact findValid_mono pi csvMsg bag _ _ _ h
        · rw [if_neg heq] at h ⊢
          by_cases hgt : m.time > val
          · rw [if_pos hgt] at h ⊢
            exact ih _ _ _ _ h
          · rw [if_neg hgt] at h ⊢
            exact ih _ _ _ _ h
    · rw [if_neg hij] at h ⊢
      exact findValid_mono pi csvMsg bag _ _ _ h

/-- More fuel does not change a result of `findInBag`. -/
theorem findInBag_mono (pi : α) (csvMsg : Row α) (bag : List (Row α)) (val : α) :
    ∀ (fuel r : Nat), findInBag fuel pi csvMsg bag val = .ok r →
      ∀ fuel1, fuel ≤ fuel1 → findInBag fuel1 pi csvMsg bag val = .ok r := by
  intro fuel r h fuel1 hle
  induction fuel1, hle using Nat.le_induction with
  | base => exact h
  | succ k _ ih =>
    unfold findInBag at ih ⊢
    cases hv : vecAt bag 0 with
    | error e =>
      rw [hv] at ih
      simp at ih
    | ok first =>
      rw [hv] at ih
      simp only at ih ⊢
      by_cases h1 : val ≤ first.time
      · rw [if_pos h1] at ih ⊢
        exact findValid_mono pi csvMsg bag _ _ _ ih
      · rw [if_neg h1] at ih ⊢
        cases hv1 : vecAt bag
            ((bag.length + 18446744073709551616 - 1) % 18446744073709551616) with
        | error e =>
          rw [hv1] at ih
          simp at ih
        | ok last =>
          rw [hv1] at ih
          simp only at ih ⊢
          by_cases h2 : val ≥ last.time
          · rw [if_pos h2] at ih ⊢
            exact findValid_mono pi csvMsg bag _ _ _ ih
          · rw [if_neg h2] at ih ⊢
            exact findInBagLoop_mono k pi csvMsg bag val _ _ _ _ _ ih

/-- More fuel does not change a result of `findValid`, for any amount of fuel. -/
theorem findValid_mono_le (pi : α) (csvMsg : Row α) (bag : List (Row α)) (index : Nat) :
    ∀ (fuel r : Nat), findValid fuel pi csvMsg bag index = .ok r →
      ∀ fuel1, fuel ≤ fuel1 → findValid fuel1 pi csvMsg bag index = .ok r := by
  intro fuel r h fuel1 hle
  induction fuel1, hle using Nat.le_induction with
  | base => exact h
  | succ k _ ih => exact findValid_mono pi csvMsg bag index k r ih

/-- When no row of the series has the sample time, `findValid` returns the candidate
as it is. -/
theorem findValid_of_no_time (fuel : Nat) (pi : α) (csvMsg : Row α) (bag : List (Row α))
    (index : Nat) (hlen : bag.length < 2147483648) (hidx : index < bag.length)
    (hfuel : 22 ≤ fuel) (hno : ∀ row ∈ bag, row.time ≠ csvMsg.time) :
    findValid fuel pi csvMsg bag index = .ok index := by
  obtain ⟨r, hr, h⟩ := findValid_result fuel pi csvMsg bag index hlen hidx hfuel
  rcases h with h | ⟨_, _, _, _, row, h1, h2, _⟩
  · rw [hr, h]
  · exact absurd h2 (hno row (List.getElem?_mem h1))

/-- A comparison with a number stays true when the number grows. -/
theorem Dbl.lt_num_mono {x : Dbl α} {u w : α} (h : Dbl.lt x (.num u) = true)
    (huw : u ≤ w) : Dbl.lt x (.num w) = true := by
  cases x with
  | nan => simp [Dbl.lt] at h
  | num v =>
    simp only [Dbl.lt, decide_eq_true_eq] at h ⊢
    exact lt_of_lt_of_le h huw

/-- With both yaws of magnitude at most `B`, where `2 * B < 7` (yaws between `-pi`
and `pi`, say), and a candidate `c` of at least 17, the angular error is below
`c - 10` for any value `pi` of the constant: it is at most `|a - b|`, which is at
most `2 * B`. -/
theorem angularError_lt_of_yaws (pi B a b : α) (hB : 2 * B < 7)
    (ha : |a| ≤ B) (hb : |b| ≤ B) (c : Nat) (hc : 17 ≤ c) :
    Dbl.lt (angularError pi (.num a) (.num b)) (.num (((c - 10 : Nat)) : α)) = true := by
  have hab : |a - b| ≤ 2 * B := by
    have := abs_sub a b
    linarith
  have hc7 : (7 : α) ≤ (((c - 10 : Nat)) : α) := by
    have : 7 ≤ c - 10 := by omega
    exact_mod_cast this
  simp only [angularError, Dbl.sub, Dbl.abs, Dbl.gt, Dbl.lt, Bool.and_eq_true,
    decide_eq_true_eq]
  split_ifs with h
  · simp only [Dbl.sub, Dbl.lt, decide_eq_true_eq]
    linarith [h.1]
  · simp only [Dbl.lt, decide_eq_true_eq]
    linarith

/-- One pass of the body of the first loop of `main` in a non-empty logged series
sorted by time (equal timestamps allowed): the pass returns, and either some logged
row has exactly the time of `csvMsg`, `findInBag` returns the index of such a row and
one entry with this time is appended to `errorVec`, or no logged row has this time and
one diagnostic is appended instead. -/
theorem errorStep_entry (fuel : Nat) (pi : α) (sqrt : α → α) (bag : List (Row α))
    (st : ErrorState α) (csvMsg : Row α)
    (hs : bag.Pairwise (fun a b => a.time ≤ b.time)) (hne : bag ≠ [])
    (hlen : bag.length < 2147483648) (hfuel : bag.length + 22 ≤ fuel) :
    ∃ st1, errorStep fuel pi sqrt bag st csvMsg = .ok st1 ∧
      (((∃ row ∈ bag, row.time = csvMsg.time) ∧
          (∃ r row, findInBag fuel pi csvMsg bag csvMsg.time = .ok r ∧ bag[r]? = some row ∧
            row.time = csvMsg.time) ∧
          (∃ e, e.time = csvMsg.time ∧ st1.errorVec = st.errorVec ++ [e]) ∧
          st1.notFound = st.notFound) ∨
        ((¬ ∃ row ∈ bag, row.time = csvMsg.time) ∧ st1.errorVec = st.errorVec ∧
          ∃ idx, st1.notFound = st.notFound ++ [(csvMsg.time, idx)])) := by
  obtain ⟨idx, b, hidx, hb, hstep⟩ := errorStep_run fuel pi sqrt bag st csvMsg hne hlen hfuel
  refine ⟨_, hstep, ?_⟩
  by_cases hex : ∃ row ∈ bag, row.time = csvMsg.time
  · obtain ⟨r, row, hr, hrow, ht⟩ := findInBag_time fuel pi csvMsg bag hs hlen hfuel hex
    have hri : r = idx := by
      rw [hidx] at hr
      exact (Except.ok.inj hr).symm
    subst hri
    have hbrow : b = row := by
      rw [hb] at hrow
      exact Option.some.inj hrow
    subst hbrow
    left
    rw [if_pos ht]
    exact ⟨hex, ⟨r, b, hidx, hb, ht⟩, ⟨_, ht, rfl⟩, rfl⟩
  · right
    have ht : ¬ b.time = csvMsg.time := fun h => hex ⟨b, List.getElem?_mem hb, h⟩
    rw [if_neg ht]
    exact ⟨hex, rfl, idx, rfl⟩

/-- The first loop of `main` from any state, in a non-empty logged series sorted by
time: it runs to its end; the times of the entries it appends to `errorVec` are, in
order, the times of the reference samples for which some logged row has exactly their
time, and the diagnostics it appends are, in order, for the other reference samples. -/
theorem errorLoop_times (fuel : Nat) (pi : α) (sqrt : α → α) (bag : List (Row α))
    (hs : bag.Pairwise (fun a b => a.time ≤ b.time)) (hne : bag ≠ [])
    (hlen : bag.length < 2147483648) (hfuel : bag.length + 22 ≤ fuel) :
    ∀ (csvVec : List (Row α)) (st0 : ErrorState α),
      ∃ st, errorLoop fuel pi sqrt bag csvVec st0 = .ok st ∧
        st.errorVec.map (fun e => e.time) = st0.errorVec.map (fun e => e.time) ++
          (csvVec.filter (fun r => decide (∃ row ∈ bag, row.time = r.time))).map
            (fun r => r.time) ∧
        st.notFound.map (fun p => p.1) = st0.notFound.map (fun p => p.1) ++
          (csvVec.filter (fun r => !decide (∃ row ∈ bag, row.time = r.time))).map
            (fun r => r.time) := by
  intro csvVec
  induction csvVec with
  | nil =>
    intro st0
    exact ⟨st0, rfl, by simp, by simp⟩
  | cons csvMsg rest ih =>
    intro st0
    obtain ⟨st1, hstep, hcase⟩ :=
      errorStep_entry fuel pi sqrt bag st0 csvMsg hs hne hlen hfuel
    obtain ⟨st, hst, h1, h2⟩ := ih st1
    refine ⟨st, ?_, ?_, ?_⟩
    · rw [errorLoop, hstep]
      exact hst
    · rcases hcase with ⟨hex, _, ⟨e, het, hev⟩, _⟩ | ⟨hex, hev, _⟩
      · rw [h1, hev]
        simp [List.filter_cons, hex, het]
      · rw [h1, hev]
        simp [List.filter_cons, hex]
    · rcases hcase with ⟨hex, _, _, hnf⟩ | ⟨hex, _, idx, hnf⟩
      · rw [h2, hnf]
        simp [List.filter_cons, hex]
      · rw [h2, hnf]
        simp [List.filter_cons, hex]

end Lemmas

section Claims

variable {α : Type} [LinearOrderedField α]

/-- C1 (alignment exactness): in a logged series whose timestamps are strictly
increasing, a query whose time is the time of the row at index `k` is aligned by
`findInBag` with exactly `k`, wherever `k` lies (first, last or in between).  The
series has fewer than `2 ^ 31` rows, so that the `unsigned` index arithmetic does not
wrap, and the loops get enough fuel. -/
theorem findInBag_exact (fuel : Nat) (pi : α) (csvMsg : Row α) (bag : List (Row α))
    (k : Nat) (row : Row α)
    (hs : bag.Pairwise (fun a b => a.time < b.time)) (hlen : bag.length < 2147483648)
    (hfuel : bag.length + 22 ≤ fuel)
    (hk : bag[k]? = some row) (hq : csvMsg.time = row.time) :
    findInBag fuel pi csvMsg bag csvMsg.time = .ok k := by
  have hs1 : bag.Pairwise (fun a b => a.time ≤ b.time) :=
    hs.imp (fun h => le_of_lt h)
  obtain ⟨r, row1, hr, hrow1, ht⟩ := findInBag_time fuel pi csvMsg bag hs1 hlen hfuel
    ⟨row, List.getElem?_mem hk, hq.symm⟩
  have : r = k := index_eq_of_time_eq hs hrow1 hk (ht.trans hq)
  rw [hr, this]

/-- Witness of C1: the series with timestamps 1..25, queried at time 13. -/
theorem findInBag_exact_witness :
    (series25 : List (Row ℚ)).Pairwise (fun a b => a.time < b.time) ∧
      findInBag 47 M_PI (rowAt 13 1) (series25 : List (Row ℚ)) (rowAt 13 1 : Row ℚ).time
        = .ok 12 :=
  ⟨by decide,
    findInBag_exact 47 M_PI (rowAt 13 1) series25 12 (rowAt 13 0) (by decide) (by decide)
      (by decide) (by decide) (by decide)⟩

/-- C2 (a sample is unmatched only when its timestamp is not logged): in a non-empty
logged series sorted by time (equal timestamps allowed) the first loop of `main`
runs to its end over any reference series.  The times of the entries of `errorVec`
are, in order, the times of the reference samples for which some logged row has
exactly their time, and the diagnostics are, in order, for the other reference
samples.  So for a reference sample `r` an entry with its time is in `errorVec` if
and only if some logged row has the time `r.time`, a diagnostic for its time is
printed if and only if none has, and when some logged row has the time `r.time`,
`findInBag` returns the index of such a row. -/
theorem errorLoop_entry_iff (fuel : Nat) (pi : α) (sqrt : α → α) (bag csvVec : List (Row α))
    (hs : bag.Pairwise (fun a b => a.time ≤ b.time)) (hne : bag ≠ [])
    (hlen : bag.length < 2147483648) (hfuel : bag.length + 22 ≤ fuel) :
    ∃ st, errorLoop fuel pi sqrt bag csvVec ErrorState.init = .ok st ∧
      st.errorVec.map (fun e => e.time) =
        (csvVec.filter (fun r => decide (∃ row ∈ bag, row.time = r.time))).map
          (fun r => r.time) ∧
      st.notFound.map (fun p => p.1) =
        (csvVec.filter (fun r => !decide (∃ row ∈ bag, row.time = r.time))).map
          (fun r => r.time) ∧
      ∀ r ∈ csvVec,
        ((∃ e ∈ st.errorVec, e.time = r.time) ↔ ∃ row ∈ bag, row.time = r.time) ∧
        ((∃ p ∈ st.notFound, p.1 = r.time) ↔ ¬ ∃ row ∈ bag, row.time = r.time) ∧
        ((∃ row ∈ bag, row.time = r.time) →
          ∃ k row, findInBag fuel pi r bag r.time = .ok k ∧ bag[k]? = some row ∧
            row.time = r.time) := by
  obtain ⟨st, hst, h1, h2⟩ :=
    errorLoop_times fuel pi sqrt bag hs hne hlen hfuel csvVec ErrorState.init
  simp only [ErrorState.init, List.map_nil, List.nil_append] at h1 h2
  refine ⟨st, hst, h1, h2, ?_⟩
  intro r hr
  have hmem1 : (∃ e ∈ st.errorVec, e.time = r.time) ↔
      r.time ∈ st.errorVec.map (fun e => e.time) := by
    simp [List.mem_map]
  have hmem2 : (∃ p ∈ st.notFound, p.1 = r.time) ↔
      r.time ∈ st.notFound.map (fun p => p.1) := by
    simp [List.mem_map]
  refine ⟨?_, ?_, ?_⟩
  · rw [hmem1, h1]
    simp only [List.mem_map, List.mem_filter, decide_eq_true_eq]
    constructor
    · rintro ⟨r1, ⟨_, hex⟩, ht⟩
      rw [← ht]
      exact hex
    · intro hex
      exact ⟨r, ⟨hr, hex⟩, rfl⟩
  · rw [hmem2, h2]
    simp only [List.mem_map, List.mem_filter, Bool.not_eq_true', decide_eq_false_iff_not]
    constructor
    · rintro ⟨r1, ⟨_, hex⟩, ht⟩
      rw [← ht]
      exact hex
    · intro hex
      exact ⟨r, ⟨hr, hex⟩, rfl⟩
  · intro hex
    exact findInBag_time fuel pi r bag hs hlen hfuel hex

/-- Witness of C2: the end-to-end scenario, three logged rows at the times 0, 1, 2
and four reference samples at the times 0, 1, 2 and 2.5. -/
theorem errorLoop_entry_iff_witness :
    ∃ st, errorLoop 25 ((M_PI : ℚ) : ℝ) Real.sqrt (scenarioLogged : List (Row ℝ))
        scenarioReference ErrorState.init = .ok st ∧
      st.errorVec.map (fun e => e.time) =
        ((scenarioReference : List (Row ℝ)).filter (fun r =>
          decide (∃ row ∈ (scenarioLogged : List (Row ℝ)), row.time = r.time))).map
          (fun r => r.time) ∧
      st.notFound.map (fun p => p.1) =
        ((scenarioReference : List (Row ℝ)).filter (fun r =>
          !decide (∃ row ∈ (scenarioLogged : List (Row ℝ)), row.time = r.time))).map
          (fun r => r.time) ∧
      ∀ r ∈ (scenarioReference : List (Row ℝ)),
        ((∃ e ∈ st.errorVec, e.time = r.time) ↔
          ∃ row ∈ (scenarioLogged : List (Row ℝ)), row.time = r.time) ∧
        ((∃ p ∈ st.notFound, p.1 = r.time) ↔
          ¬ ∃ row ∈ (scenarioLogged : List (Row ℝ)), row.time = r.time) ∧
        ((∃ row ∈ (scenarioLogged : List (Row ℝ)), row.time = r.time) →
          ∃ k row, findInBag 25 ((M_PI : ℚ) : ℝ) r (scenarioLogged : List (Row ℝ)) r.time
              = .ok k ∧
            (scenarioLogged : List (Row ℝ))[k]? = some row ∧ row.time = r.time) :=
  errorLoop_entry_iff 25 ((M_PI : ℚ) : ℝ) Real.sqrt scenarioLogged scenarioReference
    (by norm_num [scenarioLogged]) (by decide) (by decide) (by decide)

/-- C3 (NaN-avoidance): for a candidate `c` with ten rows on both sides whose yaw is
NaN, if some index of the window `c - 10 .. c + 10` has exactly the time of the query
and a yaw that is not NaN, then `findValid` returns an index of the window whose time
is the time of the query and whose yaw is not NaN. -/
theorem findValid_avoids_nan (fuel : Nat) (pi : α) (csvMsg : Row α) (bag : List (Row α))
    (c : Nat) (cand : Row α) (hlen : bag.length < 2147483648) (hfuel : 22 ≤ fuel)
    (hc : 10 ≤ c ∧ c + 10 < bag.length) (hcand : bag[c]? = some cand)
    (hnan : cand.yaw.isnan = true)
    (hex : ∃ k row, c ≤ k + 10 ∧ k ≤ c + 10 ∧ bag[k]? = some row ∧
      row.time = csvMsg.time ∧ row.yaw.isnan = false) :
    ∃ r row, findValid fuel pi csvMsg bag c = .ok r ∧ c ≤ r + 10 ∧ r ≤ c + 10 ∧
      bag[r]? = some row ∧ row.time = csvMsg.time ∧ row.yaw.isnan = false := by
  rw [findValid_of_window fuel pi csvMsg bag c hlen hc]
  have key := findValidLoop_inv pi csvMsg bag (c + 10)
    (fun i b => c ≤ i + 10 ∧ i ≤ c + 11 ∧
      ((b = c ∧ ∀ k row, c ≤ k + 10 → k < i → bag[k]? = some row →
          ¬ (row.time = csvMsg.time ∧ row.yaw.isnan = false)) ∨
        (c ≤ b + 10 ∧ b < i ∧
          ∃ row, bag[b]? = some row ∧ row.time = csvMsg.time ∧ row.yaw.isnan = false)))
    hc.2 (by omega)
    (by
      rintro i b ⟨_, _, ⟨hb, _⟩ | ⟨_, h2, _⟩⟩
      · omega
      · omega)
    (by
      rintro i b bi hi ⟨h0, h00, ⟨hb, hno⟩ | ⟨h1, h2, h4⟩⟩ hbi hbad
      · refine ⟨by omega, by omega, Or.inl ⟨hb, ?_⟩⟩
        intro k row hk1 hk2 hrow
        rcases Nat.lt_or_ge k i with hlt | hge
        · exact hno k row hk1 hlt hrow
        · have hki : k = i := by omega
          subst hki
          rw [hbi] at hrow
          have hrow1 : bi = row := Option.some.inj hrow
          subst hrow1
          rintro ⟨ht, hn⟩
          rcases hbad with hbad | hbad
          · exact hbad ht
          · rw [hn] at hbad
            exact Bool.noConfusion hbad
      · exact ⟨by omega, by omega, Or.inr ⟨h1, by omega, h4⟩⟩)
    (by
      rintro i b bi bb hi ⟨h0, h00, hinv⟩ hbi hbb ht hn
      refine ⟨by omega, by omega, Or.inr ?_⟩
      have hI : c ≤ i + 10 ∧ i < i + 1 ∧
          ∃ row, bag[i]? = some row ∧ row.time = csvMsg.time ∧ row.yaw.isnan = false :=
        ⟨h0, by omega, bi, hbi, ht, hn⟩
      rcases hinv with ⟨hb, _⟩ | ⟨h1, h2, row, h4, h5, h6⟩
      · subst hb
        rw [hcand] at hbb
        have hbb1 : cand = bb := Option.some.inj hbb
        subst hbb1
        simp only [hnan, if_true, ite_self]
        exact hI
      · rw [hbb] at h4
        have hbb1 : bb = row := Option.some.inj h4
        subst hbb1
        simp only [h6, Bool.false_eq_true, if_false]
        split_ifs
        · exact hI
        · exact ⟨h1, by omega, bb, hbb, h5, h6⟩)
    fuel (c - 10) c (by omega) (by omega)
    ⟨by omega, by omega, Or.inl ⟨rfl, fun k row hk1 hk2 _ => by omega⟩⟩
  obtain ⟨r, hr, _, _, hinv⟩ := key
  rcases hinv with ⟨_, hno⟩ | ⟨h1, h2, row, h4, h5, h6⟩
  · obtain ⟨k, row, hk1, hk2, hrow, ht, hn⟩ := hex
    exact absurd ⟨ht, hn⟩ (hno k row hk1 (by omega) hrow)
  · exact ⟨r, row, hr, h1, by omega, h4, h5, h6⟩

/-- Witness of C3: in `seriesNaN` the candidate 10 has a NaN yaw and its neighbour 11
has the same timestamp and the yaw 1. -/
theorem findValid_avoids_nan_witness :
    ∃ r row, findValid 22 M_PI (rowAt 10 0) (seriesNaN : List (Row ℚ)) 10 = .ok r ∧
      10 ≤ r + 10 ∧ r ≤ 10 + 10 ∧ (seriesNaN : List (Row ℚ))[r]? = some row ∧
      row.time = (rowAt 10 0 : Row ℚ).time ∧ row.yaw.isnan = false :=
  findValid_avoids_nan 22 M_PI (rowAt 10 0) seriesNaN 10
    { time := 10, x := 0, y := 0, yaw := .nan } (by decide) (by decide) (by decide)
    (by decide) (by decide) ⟨11, rowAt 10 1, by decide, by decide, by decide, by decide, by decide⟩

/-- C4, the code at a failing input: for the query with time 10 and yaw 0 on
`seriesDup`, the binary search lands on index 10 and `findValid` moves to index 11,
whose angular error to the query yaw is 1, although index 10 is in the window, has the
same time, a yaw that is not NaN and the angular error 0. -/
theorem findValid_not_closest :
    findInBag 43 M_PI (rowAt 10 0) (seriesDup : List (Row ℚ)) 10 = .ok 11 ∧
      findValid 43 M_PI (rowAt 10 0) (seriesDup : List (Row ℚ)) 10 = .ok 11 ∧
      (seriesDup : List (Row ℚ))[10]? = some (rowAt 10 0) ∧
      (seriesDup : List (Row ℚ))[11]? = some (rowAt 10 1) ∧
      angularError M_PI (rowAt 10 0 : Row ℚ).yaw (rowAt 10 0 : Row ℚ).yaw = .num 0 ∧
      angularError M_PI (rowAt 10 1 : Row ℚ).yaw (rowAt 10 0 : Row ℚ).yaw = .num 1 := by
  decide!

/-- C5 (unmatched accounting): on a non-empty logged series the first loop of `main`
runs to its end for every reference series, the number of error entries plus the
number of samples reported as not found is the length of the reference series, the
number of error entries is at most that length, and the difference
`csvVec.size() - errorVec.size()` that `main` prints does not wrap: it is the number of
samples reported as not found. -/
theorem errorLoop_accounting (fuel : Nat) (pi : α) (sqrt : α → α)
    (bag csvVec : List (Row α)) (hne : bag ≠ []) (hlen : bag.length < 2147483648)
    (hfuel : bag.length + 22 ≤ fuel) (hcsv : csvVec.length < 18446744073709551616) :
    ∃ st, errorLoop fuel pi sqrt bag csvVec ErrorState.init = .ok st ∧
      st.errorVec.length + st.notFound.length = csvVec.length ∧
      st.errorVec.length ≤ csvVec.length ∧
      entriesNotFound csvVec st = st.notFound.length := by
  obtain ⟨st, hst, _, h2⟩ :=
    errorLoop_run fuel pi sqrt bag hne hlen hfuel csvVec ErrorState.init
  have h3 : st.errorVec.length + st.notFound.length = csvVec.length := by
    rw [h2]
    simp [ErrorState.init]
  refine ⟨st, hst, h3, by omega, ?_⟩
  unfold entriesNotFound
  omega

/-- Witness of C5: the end-to-end scenario, whose fourth reference sample is not
logged. -/
theorem errorLoop_accounting_witness :
    ∃ st, errorLoop 25 Real.pi Real.sqrt (scenarioLogged : List (Row ℝ)) scenarioReference
        ErrorState.init = .ok st ∧
      st.errorVec.length + st.notFound.length = (scenarioReference : List (Row ℝ)).length ∧
      st.errorVec.length ≤ (scenarioReference : List (Row ℝ)).length ∧
      entriesNotFound (scenarioReference : List (Row ℝ)) st = st.notFound.length :=
  errorLoop_accounting 25 Real.pi Real.sqrt scenarioLogged scenarioReference (by decide)
    (by decide) (by decide) (by decide)

/-- C6 (the error sequence): on a non-empty logged series the first loop of `main`
leaves in `errorVec` exactly the error sequence of the specification: in reference
order, one entry per reference sample `r` whose aligned logged sample `l` has the time
of `r`, with the time of `l`, the Euclidean distance
`sqrt((r.x - l.x)^2 + (r.y - l.y)^2)` and the angular error.  The times of the entries
are the times of the matched reference samples in order, and with a square root that
is never negative every position error is at least 0. -/
theorem errorLoop_sequence (fuel : Nat) (pi : α) (sqrt : α → α) (bag csvVec : List (Row α))
    (hne : bag ≠ []) (hlen : bag.length < 2147483648) (hfuel : bag.length + 22 ≤ fuel)
    (hsqrt : ∀ v, 0 ≤ sqrt v) :
    ∃ st, errorLoop fuel pi sqrt bag csvVec ErrorState.init = .ok st ∧
      st.errorVec = computeErrors fuel pi sqrt bag csvVec ∧
      st.errorVec.map (fun e => e.time)
        = (csvVec.filter (fun r => (alignedSample fuel pi bag r).isSome)).map
            (fun r => r.time) ∧
      (∀ e ∈ st.errorVec, ∃ r l, r ∈ csvVec ∧ l ∈ bag ∧ l.time = r.time ∧ e.time = r.time ∧
        e.positionError = sqrt ((r.x - l.x) ^ 2 + (r.y - l.y) ^ 2) ∧ 0 ≤ e.positionError) := by
  obtain ⟨st, hst, h1, _⟩ :=
    errorLoop_run fuel pi sqrt bag hne hlen hfuel csvVec ErrorState.init
  have h2 : st.errorVec = computeErrors fuel pi sqrt bag csvVec := by
    rw [h1]
    simp [ErrorState.init]
  refine ⟨st, hst, h2, ?_, ?_⟩
  · rw [h2]
    exact computeErrors_times fuel pi sqrt bag csvVec
  · intro e he
    rw [h2] at he
    obtain ⟨r, l, hr, hal, hel⟩ := computeErrors_position fuel pi sqrt bag csvVec e he
    have ht := alignedSample_time fuel pi bag r l hal
    have hmem : l ∈ bag := by
      unfold alignedSample at hal
      split at hal
      · exact Option.noConfusion hal
      · split at hal
        · exact Option.noConfusion hal
        · rename_i l1 hl1
          split_ifs at hal
          have hl := Option.some.inj hal
          subst hl
          exact List.getElem?_mem hl1
    subst hel
    exact ⟨r, l, hr, hmem, ht, ht, rfl, hsqrt _⟩

/-- Witness of C6: the end-to-end scenario over the real numbers. -/
theorem errorLoop_sequence_witness :
    ∃ st, errorLoop 25 Real.pi Real.sqrt (scenarioLogged : List (Row ℝ)) scenarioReference
        ErrorState.init = .ok st ∧
      st.errorVec = computeErrors 25 Real.pi Real.sqrt scenarioLogged scenarioReference ∧
      st.errorVec.map (fun e => e.time)
        = ((scenarioReference : List (Row ℝ)).filter
            (fun r => (alignedSample 25 Real.pi scenarioLogged r).isSome)).map
            (fun r => r.time) ∧
      (∀ e ∈ st.errorVec, ∃ r l, r ∈ (scenarioReference : List (Row ℝ)) ∧
        l ∈ (scenarioLogged : List (Row ℝ)) ∧ l.time = r.time ∧ e.time = r.time ∧
        e.positionError = Real.sqrt ((r.x - l.x) ^ 2 + (r.y - l.y) ^ 2) ∧
        0 ≤ e.positionError) :=
  errorLoop_sequence 25 Real.pi Real.sqrt scenarioLogged scenarioReference (by decide)
    (by decide) (by decide) Real.sqrt_nonneg

/-- C8, the code at a failing input: for `sdReference` against `sdLogged` the first
loop of `main` leaves the error sequence `sdErrors` with the position errors 1 and 1;
`positionErrorSD` is then 1, while the population standard deviation of these errors
is 0. -/
theorem positionErrorSD_not_deviation :
    (∃ st, errorLoop 24 Real.pi Real.sqrt (sdLogged : List (Row ℝ)) sdReference
        ErrorState.init = .ok st ∧ st.errorVec = sdErrors) ∧
      positionErrorSD Real.sqrt (sdErrors : List (ErrorRow ℝ)) = .num 1 ∧
      populationSD Real.sqrt ((sdErrors : List (ErrorRow ℝ)).map (fun e => e.positionError))
        = 0 := by
  refine ⟨?_, ?_, ?_⟩
  · norm_num [errorLoop, errorStep, findInBag, findValid, vecAt, sdLogged, sdReference,
      ErrorState.init, sdErrors, msgSearchRadius, angularError, Dbl.sub, Dbl.abs, Dbl.gt,
      Dbl.lt, Dbl.add, not_lt.mpr Real.pi_pos.le]
  · norm_num [positionErrorSD, sdLoop, sdErrors, Dbl.div, Dbl.sqrt]
  · simp [populationSD, sdErrors]

/-- C9 (outlier classification, strict threshold): for the sample `e` at index `i` of
`errorVec`, with `zPos = (e.positionError - positionErrorMean) / positionErrorSD` and
`zOri` likewise, `outlierVec` has a row for `i` iff `|zPos| > 3` or `|zOri| > 3`; the
row is `outlierAtBoth` iff both exceed 3, `outlierAtPosition` iff only `|zPos|` does,
`outlierAtOrientation` iff only `|zOri|` does; and when both `|zPos|` and `|zOri|`
are exactly 3 there is no row for `i`. -/
theorem outlier_record_iff (sqrt : α → α) (st : ErrorState α) (i : Nat) (e : ErrorRow α)
    (he : st.errorVec[i]? = some e) :
    let zPos := Dbl.div (Dbl.sub (.num e.positionError) (positionErrorMean st))
      (positionErrorSD sqrt st.errorVec)
    let zOri := Dbl.div (Dbl.sub e.orientationError (orientationErrorMean st))
      (orientationErrorSD sqrt st.errorVec)
    ((∃ id, (i, id) ∈ (outliers sqrt st).outlierVec) ↔
        (Dbl.gt (Dbl.abs zPos) (.num 3) = true ∨ Dbl.gt (Dbl.abs zOri) (.num 3) = true)) ∧
      ((i, outlierAtBoth) ∈ (outliers sqrt st).outlierVec ↔
        (Dbl.gt (Dbl.abs zPos) (.num 3) = true ∧ Dbl.gt (Dbl.abs zOri) (.num 3) = true)) ∧
      ((i, outlierAtPosition) ∈ (outliers sqrt st).outlierVec ↔
        (Dbl.gt (Dbl.abs zPos) (.num 3) = true ∧ ¬ Dbl.gt (Dbl.abs zOri) (.num 3) = true)) ∧
      ((i, outlierAtOrientation) ∈ (outliers sqrt st).outlierVec ↔
        (¬ Dbl.gt (Dbl.abs zPos) (.num 3) = true ∧ Dbl.gt (Dbl.abs zOri) (.num 3) = true)) ∧
      (Dbl.abs zPos = .num 3 → Dbl.abs zOri = .num 3 →
        ∀ id, (i, id) ∉ (outliers sqrt st).outlierVec) := by
  intro zPos zOri
  have hmem := mem_outliers_iff sqrt st i e he
  have hkind : kindOf (positionErrorMean st) (orientationErrorMean st)
      (positionErrorSD sqrt st.errorVec) (orientationErrorSD sqrt st.errorVec) e
      = classify (Dbl.gt (Dbl.abs zPos) (.num 3)) (Dbl.gt (Dbl.abs zOri) (.num 3)) := rfl
  rw [hkind] at hmem
  have hthree : Dbl.gt (.num (3 : α)) (.num 3) = false := by
    simp [Dbl.gt, Dbl.lt]
  refine ⟨?_, ?_, ?_, ?_, ?_⟩
  · constructor
    · rintro ⟨id, hid⟩
      rw [hmem] at hid
      rcases Bool.eq_false_or_eq_true (Dbl.gt (Dbl.abs zPos) (.num 3)) with hp | hp <;>
        rcases Bool.eq_false_or_eq_true (Dbl.gt (Dbl.abs zOri) (.num 3)) with ho | ho <;>
        simp [hp, ho, classify] at hid ⊢
    · intro h
      rcases Bool.eq_false_or_eq_true (Dbl.gt (Dbl.abs zPos) (.num 3)) with hp | hp <;>
        rcases Bool.eq_false_or_eq_true (Dbl.gt (Dbl.abs zOri) (.num 3)) with ho | ho
      · exact ⟨outlierAtBoth, (hmem _).mpr (by simp [hp, ho, classify])⟩
      · exact ⟨outlierAtPosition, (hmem _).mpr (by simp [hp, ho, classify])⟩
      · exact ⟨outlierAtOrientation, (hmem _).mpr (by simp [hp, ho, classify])⟩
      · simp [hp, ho] at h
  · rw [hmem]
    rcases Bool.eq_false_or_eq_true (Dbl.gt (Dbl.abs zPos) (.num 3)) with hp | hp <;>
      rcases Bool.eq_false_or_eq_true (Dbl.gt (Dbl.abs zOri) (.num 3)) with ho | ho <;>
      simp [hp, ho, classify, outlierAtBoth, outlierAtPosition, outlierAtOrientation]
  · rw [hmem]
    rcases Bool.eq_false_or_eq_true (Dbl.gt (Dbl.abs zPos) (.num 3)) with hp | hp <;>
      rcases Bool.eq_false_or_eq_true (Dbl.gt (Dbl.abs zOri) (.num 3)) with ho | ho <;>
      simp [hp, ho, classify, outlierAtBoth, outlierAtPosition, outlierAtOrientation]
  · rw [hmem]
    rcases Bool.eq_false_or_eq_true (Dbl.gt (Dbl.abs zPos) (.num 3)) with hp | hp <;>
      rcases Bool.eq_false_or_eq_true (Dbl.gt (Dbl.abs zOri) (.num 3)) with ho | ho <;>
      simp [hp, ho, classify, outlierAtBoth, outlierAtPosition, outlierAtOrientation]
  · intro hp ho id hid
    rw [hmem, hp, ho, hthree] at hid
    simp [classify] at hid

/-- Witness of C9: in `boundaryState` the first sample has both z-scores exactly 3
and gets no row in `outlierVec`. -/
theorem outlier_record_iff_witness :
    (boundaryState : ErrorState ℝ).errorVec[0]? = some (errorAt 0 (14 / 10)) ∧
      ∀ id, (0, id) ∉ (outliers Real.sqrt (boundaryState : ErrorState ℝ)).outlierVec := by
  have hsqrt : Real.sqrt (4 / 25) = 2 / 5 := by
    rw [show (4 / 25 : ℝ) = (2 / 5) ^ 2 by norm_num, Real.sqrt_sq (by norm_num)]
  have he : (boundaryState : ErrorState ℝ).errorVec[0]? = some (errorAt 0 (14 / 10)) := rfl
  refine ⟨he,
    (outlier_record_iff Real.sqrt boundaryState 0 (errorAt 0 (14 / 10)) he).2.2.2.2 ?_ ?_⟩
  · norm_num [positionErrorMean, positionErrorSD, sdLoop, boundaryState, errorAt, Dbl.div,
      Dbl.sub, Dbl.sqrt, Dbl.abs, hsqrt]
  · norm_num [orientationErrorMean, orientationErrorSD, sdLoop, boundaryState, errorAt,
      Dbl.div, Dbl.sub, Dbl.sqrt, Dbl.abs, Dbl.add, Dbl.pow2, hsqrt]

/-- C10 (inlier-only means): the value `main` prints as the position mean not counting
outliers is the sum of `positionError` over exactly the samples classified inlier or
`OrientationOnly`, divided by their number, and the orientation mean not counting
outliers is the sum of `orientationError` over exactly the samples classified inlier
or `PositionOnly`, divided by their number.  A sample classified `Both` is in neither
sum, and a sample classified `PositionOnly` is in the orientation sum and not in the
position sum. -/
theorem inlierOnly_means (sqrt : α → α) (st : ErrorState α) :
    positionErrorMeanOutliers sqrt st
        = inlierOnlyPositionMean
            (kindOf (positionErrorMean st) (orientationErrorMean st)
              (positionErrorSD sqrt st.errorVec) (orientationErrorSD sqrt st.errorVec))
            st.errorVec ∧
      orientationErrorMeanOutliers sqrt st
        = inlierOnlyOrientationMean
            (kindOf (positionErrorMean st) (orientationErrorMean st)
              (positionErrorSD sqrt st.errorVec) (orientationErrorSD sqrt st.errorVec))
            st.errorVec := by
  obtain ⟨h1, h2, h3, h4⟩ := outlierLoop_sums (positionErrorMean st) (orientationErrorMean st)
    (positionErrorSD sqrt st.errorVec) (orientationErrorSD sqrt st.errorVec)
    st.errorVec 0 OutlierState.init
  constructor
  · unfold positionErrorMeanOutliers inlierOnlyPositionMean outliers
    rw [h1, h2]
    simp [OutlierState.init]
  · unfold orientationErrorMeanOutliers inlierOnlyOrientationMean outliers Dbl.sum
    rw [h3, h4]
    simp [OutlierState.init]

/-- C13 (graph dataset): for a non-empty `errorVec` the records written to the graph
file are, in the order of `errorVec` and as many, the time of each row less the time
of the first row, with its position error and its orientation error; the time
offset of the first record is 0. -/
theorem graphData_records (errorVec : List (ErrorRow α)) (hne : errorVec ≠ []) :
    ∃ first g, errorVec[0]? = some first ∧ graphData errorVec = .ok g ∧
      g = errorVec.map (fun e => (e.time - first.time, e.positionError, e.orientationError)) ∧
      g.length = errorVec.length ∧
      (∀ (k : Nat) (e : ErrorRow α), errorVec[k]? = some e →
        g[k]? = some (e.time - first.time, e.positionError, e.orientationError)) ∧
      g[0]? = some (0, first.positionError, first.orientationError) := by
  have hpos : 0 < errorVec.length := List.length_pos.mpr hne
  have hfirst : errorVec[0]? = some errorVec[0] := List.getElem?_eq_getElem hpos
  have hg : graphData errorVec = .ok (errorVec.map (fun e =>
      (e.time - errorVec[0].time, e.positionError, e.orientationError))) := by
    unfold graphData
    rw [vecAt_of_get hfirst]
    simp [graphLoop_eq]
  refine ⟨errorVec[0], _, hfirst, hg, rfl, by simp, ?_, ?_⟩
  · intro k e hk
    rw [List.getElem?_map, hk]
    rfl
  · rw [List.getElem?_map, hfirst]
    simp

/-- Witness of C13: the error sequence `sdErrors`. -/
theorem graphData_records_witness :
    ∃ first g, (sdErrors : List (ErrorRow ℚ))[0]? = some first ∧
      graphData (sdErrors : List (ErrorRow ℚ)) = .ok g ∧
      g = (sdErrors : List (ErrorRow ℚ)).map
        (fun e => (e.time - first.time, e.positionError, e.orientationError)) ∧
      g.length = (sdErrors : List (ErrorRow ℚ)).length ∧
      (∀ (k : Nat) (e : ErrorRow ℚ), (sdErrors : List (ErrorRow ℚ))[k]? = some e →
        g[k]? = some (e.time - first.time, e.positionError, e.orientationError)) ∧
      g[0]? = some (0, first.positionError, first.orientationError) :=
  graphData_records sdErrors (by decide)

/-- C14 (`getBagName` and `std::out_of_range`), the code at failing inputs:
`getBagName` returns a name for every path and never fails.  For the path `bagfile`,
which has no `/` and no `.`, it returns `bagfile`; for `/data/bagfile`, whose file
name has no `.`, it returns `bagfile`; for `run1.bag`, which has no `/`, it returns
`run1`. -/
theorem getBagName_never_fails :
    (∀ full_path : List Char, ∃ name, getBagName full_path = .ok name) ∧
      getBagName "bagfile".toList = .ok "bagfile".toList ∧
      getBagName "/data/bagfile".toList = .ok "bagfile".toList ∧
      getBagName "run1.bag".toList = .ok "run1".toList := by
  refine ⟨?_, by decide, by decide, by decide⟩
  intro full_path
  have hpos : ¬ (find_last_of full_path ['/'] + 1) % 18446744073709551616
      > full_path.length := by
    unfold find_last_of
    rcases lastPosition_bound (fun c => ['/'].contains c) full_path 0 npos with h | ⟨_, h⟩
    · rw [h]
      unfold npos
      omega
    · have := Nat.mod_le (lastPosition (fun c => ['/'].contains c) full_path 0 npos + 1)
        18446744073709551616
      omega
  unfold getBagName substr
  rw [if_neg hpos]
  simp

/-- C15 (clamp): on a non-empty logged series, a query time at or below the first
time makes `findInBag` return index 0, and otherwise a query time at or above the
last time makes it return the last index; `findValid` returns both candidates as they
are, because neither has ten rows on both sides. -/
theorem findInBag_clamp (fuel : Nat) (pi : α) (csvMsg : Row α) (bag : List (Row α))
    (val : α) (first last : Row α) (hlen : bag.length < 2147483648)
    (hfirst : bag[0]? = some first) (hlast : bag[bag.length - 1]? = some last) :
    (val ≤ first.time → findInBag fuel pi csvMsg bag val = .ok 0) ∧
      (¬ val ≤ first.time → val ≥ last.time →
        findInBag fuel pi csvMsg bag val = .ok (bag.length - 1)) ∧
      findValid fuel pi csvMsg bag 0 = .ok 0 ∧
      findValid fuel pi csvMsg bag (bag.length - 1) = .ok (bag.length - 1) ∧
      ¬ (10 ≤ 0 ∧ 0 + 10 < bag.length) ∧
      ¬ (10 ≤ bag.length - 1 ∧ bag.length - 1 + 10 < bag.length) := by
  have hpos : 0 < bag.length := (List.getElem?_eq_some_iff.mp hfirst).1
  have hw0 : ¬ (10 ≤ 0 ∧ 0 + 10 < bag.length) := by omega
  have hw1 : ¬ (10 ≤ bag.length - 1 ∧ bag.length - 1 + 10 < bag.length) := by omega
  have hv0 := findValid_of_not_window fuel pi csvMsg bag 0 hlen hpos hw0
  have hv1 := findValid_of_not_window fuel pi csvMsg bag (bag.length - 1) hlen (by omega) hw1
  refine ⟨?_, ?_, hv0, hv1, hw0, hw1⟩
  · intro h
    rw [findInBag_cases fuel pi csvMsg bag val _ _ hlen hfirst hlast, if_pos h, hv0]
  · intro h1 h2
    rw [findInBag_cases fuel pi csvMsg bag val _ _ hlen hfirst hlast, if_neg h1, if_pos h2,
      hv1]

/-- Witness of C15: the series with timestamps 1..25 and the query time 30. -/
theorem findInBag_clamp_witness :
    ((30 : ℚ) ≤ (rowAt 1 0 : Row ℚ).time →
        findInBag 0 M_PI (rowAt 30 0) (series25 : List (Row ℚ)) 30 = .ok 0) ∧
      (¬ (30 : ℚ) ≤ (rowAt 1 0 : Row ℚ).time → (30 : ℚ) ≥ (rowAt 25 0 : Row ℚ).time →
        findInBag 0 M_PI (rowAt 30 0) (series25 : List (Row ℚ)) 30
          = .ok ((series25 : List (Row ℚ)).length - 1)) ∧
      findValid 0 M_PI (rowAt 30 0) (series25 : List (Row ℚ)) 0 = .ok 0 ∧
      findValid 0 M_PI (rowAt 30 0) (series25 : List (Row ℚ))
          ((series25 : List (Row ℚ)).length - 1)
        = .ok ((series25 : List (Row ℚ)).length - 1) ∧
      ¬ (10 ≤ 0 ∧ 0 + 10 < (series25 : List (Row ℚ)).length) ∧
      ¬ (10 ≤ (series25 : List (Row ℚ)).length - 1 ∧
        (series25 : List (Row ℚ)).length - 1 + 10 < (series25 : List (Row ℚ)).length) :=
  findInBag_clamp 0 M_PI (rowAt 30 0) series25 30 (rowAt 1 0) (rowAt 25 0) (by decide)
    (by decide) (by decide)

/-- C16 (bracketing match): in a logged series sorted by time, for a query whose time
lies strictly between the first and the last time and is the time of no row,
`findInBag` returns an index `k` that brackets the query: the row at `k` is earlier
than the query and `k` is the greatest such index, or the row at `k` is later than
the query and `k` is the least such index. -/
theorem findInBag_brackets (fuel : Nat) (pi : α) (csvMsg : Row α) (bag : List (Row α))
    (first last : Row α)
    (hs : bag.Pairwise (fun a b => a.time ≤ b.time)) (hlen : bag.length < 2147483648)
    (hfuel : bag.length + 22 ≤ fuel)
    (hfirst : bag[0]? = some first) (hlast : bag[bag.length - 1]? = some last)
    (h1 : first.time < csvMsg.time) (h2 : csvMsg.time < last.time)
    (hno : ∀ row ∈ bag, row.time ≠ csvMsg.time) :
    ∃ k row, findInBag fuel pi csvMsg bag csvMsg.time = .ok k ∧ bag[k]? = some row ∧
      ((row.time < csvMsg.time ∧
          ∀ (k1 : Nat) (row1 : Row α), bag[k1]? = some row1 → row1.time < csvMsg.time →
            k1 ≤ k) ∨
        (csvMsg.time < row.time ∧
          ∀ (k1 : Nat) (row1 : Row α), bag[k1]? = some row1 → csvMsg.time < row1.time →
            k ≤ k1)) := by
  have hpos : 0 < bag.length := (List.getElem?_eq_some_iff.mp hfirst).1
  rw [findInBag_cases fuel pi csvMsg bag _ _ _ hlen hfirst hlast,
    if_neg (not_le.mpr h1), if_neg (not_le.mpr h2)]
  have h0j : 0 < bag.length - 1 := by
    rcases Nat.eq_zero_or_pos (bag.length - 1) with h | h
    · rw [h, hfirst] at hlast
      have := Option.some.inj hlast
      subst this
      exact absurd (lt_trans h1 h2) (lt_irrefl _)
    · exact h
  exact findInBagLoop_post fuel pi csvMsg bag csvMsg.time
    (fun res => ∃ k row, res = .ok k ∧ bag[k]? = some row ∧
      ((row.time < csvMsg.time ∧
          ∀ (k1 : Nat) (row1 : Row α), bag[k1]? = some row1 → row1.time < csvMsg.time →
            k1 ≤ k) ∨
        (csvMsg.time < row.time ∧
          ∀ (k1 : Nat) (row1 : Row α), bag[k1]? = some row1 → csvMsg.time < row1.time →
            k ≤ k1)))
    (fun i j mid => i ≤ j ∧ j < bag.length ∧
      (∀ (k : Nat) (row : Row α), bag[k]? = some row → k < i → row.time < csvMsg.time) ∧
      (∀ (k : Nat) (row : Row α), bag[k]? = some row → j ≤ k → csvMsg.time < row.time) ∧
      (i < j ∨ mid = j ∨ mid + 1 = i))
    (fun i j mid h => ⟨h.2.1, by omega⟩)
    (by
      rintro i j mid row _ _ hrow heq
      exact absurd heq (hno row (List.getElem?_mem hrow)))
    (by
      rintro i j mid row ⟨hij, hj, hlo, hhi, _⟩ hlt hrow hgt
      refine ⟨by omega, by omega, hlo, ?_, Or.inr (Or.inl rfl)⟩
      intro k rowk hk hle
      exact lt_of_lt_of_le hgt (time_le_of_sorted hs hrow hk hle))
    (by
      rintro i j mid row ⟨hij, hj, hlo, hhi, _⟩ hlt hrow hlt1
      refine ⟨by omega, hj, ?_, hhi, Or.inr (Or.inr rfl)⟩
      intro k rowk hk hle
      exact lt_of_le_of_lt (time_le_of_sorted hs hk hrow (by omega)) hlt1)
    (by
      rintro i j mid ⟨hij, hj, hlo, hhi, hmid⟩ hnlt
      have hij1 : i = j := by omega
      subst hij1
      rcases hmid with h | h | h
      · omega
      · subst h
        have hrow : bag[mid]? = some bag[mid] := List.getElem?_eq_getElem hj
        refine ⟨mid, bag[mid],
          findValid_of_no_time fuel pi csvMsg bag mid hlen hj (by omega) hno, hrow,
          Or.inr ⟨hhi mid _ hrow (le_refl _), ?_⟩⟩
        intro k1 row1 hk1 hgt
        by_contra hcon
        exact absurd (hlo k1 row1 hk1 (by omega)) (not_lt.mpr (le_of_lt hgt))
      · have hm : mid < bag.length := by omega
        have hrow : bag[mid]? = some bag[mid] := List.getElem?_eq_getElem hm
        refine ⟨mid, bag[mid],
          findValid_of_no_time fuel pi csvMsg bag mid hlen hm (by omega) hno, hrow,
          Or.inl ⟨hlo mid _ hrow (by omega), ?_⟩⟩
        intro k1 row1 hk1 hlt
        by_contra hcon
        exact absurd (hhi k1 row1 hk1 (by omega)) (not_lt.mpr (le_of_lt hlt)))
    fuel 0 (bag.length - 1) 0 (by omega)
    ⟨Nat.zero_le _, by omega, fun k row _ hk => absurd hk (Nat.not_lt_zero k),
      (by
        intro k row hk hle
        have hkl : k < bag.length := (List.getElem?_eq_some_iff.mp hk).1
        have hkeq : k = bag.length - 1 := by omega
        rw [hkeq, hlast] at hk
        rw [← Option.some.inj hk]
        exact h2),
      Or.inl h0j⟩

/-- Witness of C16: the series with timestamps 1..25 and a query at time 13.5. -/
theorem findInBag_brackets_witness :
    ∃ k row, findInBag 47 M_PI (rowAt (27 / 2) 0) (series25 : List (Row ℚ))
        (rowAt (27 / 2) 0 : Row ℚ).time = .ok k ∧
      (series25 : List (Row ℚ))[k]? = some row ∧
      ((row.time < (rowAt (27 / 2) 0 : Row ℚ).time ∧
          ∀ (k1 : Nat) (row1 : Row ℚ), (series25 : List (Row ℚ))[k1]? = some row1 →
            row1.time < (rowAt (27 / 2) 0 : Row ℚ).time → k1 ≤ k) ∨
        ((rowAt (27 / 2) 0 : Row ℚ).time < row.time ∧
          ∀ (k1 : Nat) (row1 : Row ℚ), (series25 : List (Row ℚ))[k1]? = some row1 →
            (rowAt (27 / 2) 0 : Row ℚ).time < row1.time → k ≤ k1)) :=
  findInBag_brackets 47 M_PI (rowAt (27 / 2) 0) series25 (rowAt 1 0) (rowAt 25 0)
    (by decide) (by decide) (by decide) (by decide) (by decide) (by decide!) (by decide!)
    (by decide!)

/-- C17 (index safety): on a non-empty logged series `findInBag` returns, with any
fuel from the size of the series plus 22 on, one and the same index, which is below
the size of the series; no access of `findInBag` or `findValid` is out of range.
`findValid` returns an index below the size for every candidate below the size.  When
its guard holds, the series has at least ten rows and the window
`index - 10 .. index + 10` lies within the series; in a series of fewer than ten
rows, where `bag.size() - msgSearchRadius` wraps around to at least `2 ^ 64 - 10`,
the guard is false for every candidate below the size and the candidate is returned
as it is. -/
theorem findInBag_safe (pi : α) (csvMsg : Row α) (bag : List (Row α)) (val : α)
    (hne : bag ≠ []) (hlen : bag.length < 2147483648) :
    (∃ r, r < bag.length ∧
        ∀ fuel, bag.length + 22 ≤ fuel → findInBag fuel pi csvMsg bag val = .ok r) ∧
      (∀ index, index < bag.length → ∃ r, r < bag.length ∧
        ∀ fuel, 22 ≤ fuel → findValid fuel pi csvMsg bag index = .ok r) ∧
      (∀ index, index < bag.length → msgSearchRadius ≤ index →
        index < (bag.length + 18446744073709551616 - msgSearchRadius) % 18446744073709551616 →
        10 ≤ bag.length ∧ 0 ≤ index - 10 ∧ index + 10 ≤ bag.length - 1 ∧
          (index + msgSearchRadius) % 4294967296 = index + 10) ∧
      (bag.length < 10 →
        18446744073709551606
            ≤ (bag.length + 18446744073709551616 - msgSearchRadius) % 18446744073709551616 ∧
          ∀ index fuel, index < bag.length → findValid fuel pi csvMsg bag index = .ok index) := by
  refine ⟨?_, ?_, ?_, ?_⟩
  · obtain ⟨r, hr, hlt⟩ :=
      findInBag_lt (bag.length + 22) pi csvMsg bag val hne hlen (le_refl _)
    exact ⟨r, hlt, fun fuel hfuel => findInBag_mono pi csvMsg bag val _ r hr fuel hfuel⟩
  · intro index hidx
    obtain ⟨r, hr, hlt⟩ := findValid_lt 22 pi csvMsg bag index hlen hidx (le_refl _)
    exact ⟨r, hlt, fun fuel hfuel => findValid_mono_le pi csvMsg bag index _ r hr fuel hfuel⟩
  · intro index hidx h1 h2
    unfold msgSearchRadius at h1 h2 ⊢
    omega
  · intro hsmall
    unfold msgSearchRadius
    refine ⟨by omega, ?_⟩
    intro index fuel hidx
    exact findValid_of_not_window fuel pi csvMsg bag index hlen hidx (by omega)

/-- Witness of C17: the scenario series of three rows, fewer than ten. -/
theorem findInBag_safe_witness :
    (∃ r, r < (scenarioLogged : List (Row ℚ)).length ∧
        ∀ fuel, (scenarioLogged : List (Row ℚ)).length + 22 ≤ fuel →
          findInBag fuel M_PI (rowAt (3 / 2) 0) (scenarioLogged : List (Row ℚ)) (3 / 2)
            = .ok r) ∧
      (∀ index, index < (scenarioLogged : List (Row ℚ)).length → ∃ r,
        r < (scenarioLogged : List (Row ℚ)).length ∧
        ∀ fuel, 22 ≤ fuel →
          findValid fuel M_PI (rowAt (3 / 2) 0) (scenarioLogged : List (Row ℚ)) index
            = .ok r) ∧
      (∀ index, index < (scenarioLogged : List (Row ℚ)).length → msgSearchRadius ≤ index →
        index < ((scenarioLogged : List (Row ℚ)).length + 18446744073709551616
          - msgSearchRadius) % 18446744073709551616 →
        10 ≤ (scenarioLogged : List (Row ℚ)).length ∧ 0 ≤ index - 10 ∧
          index + 10 ≤ (scenarioLogged : List (Row ℚ)).length - 1 ∧
          (index + msgSearchRadius) % 4294967296 = index + 10) ∧
      ((scenarioLogged : List (Row ℚ)).length < 10 →
        18446744073709551606
            ≤ ((scenarioLogged : List (Row ℚ)).length + 18446744073709551616
              - msgSearchRadius) % 18446744073709551616 ∧
          ∀ index fuel, index < (scenarioLogged : List (Row ℚ)).length →
            findValid fuel M_PI (rowAt (3 / 2) 0) (scenarioLogged : List (Row ℚ)) index
              = .ok index) :=
  findInBag_safe M_PI (rowAt (3 / 2) 0) scenarioLogged (3 / 2) (by decide) (by decide)

/-- C18 (what `findValid` selects): for a candidate `c` with ten rows on both sides,
when the angular error to the query yaw of every row of the window
`c - 10 .. c + 10` that has the query time and a yaw that is not NaN is smaller than
`c - 10`, `findValid` returns the greatest index of the window whose row has the query
time and a yaw that is not NaN, and returns `c` itself when the window has no such
row: the angular error is compared with the index `bestIndex`. -/
theorem findValid_selects_last (fuel : Nat) (pi : α) (csvMsg : Row α) (bag : List (Row α))
    (c : Nat) (hlen : bag.length < 2147483648) (hfuel : 22 ≤ fuel)
    (hc : 10 ≤ c ∧ c + 10 < bag.length)
    (herr : ∀ (k : Nat) (row : Row α), c ≤ k + 10 → k ≤ c + 10 → bag[k]? = some row →
      row.time = csvMsg.time → row.yaw.isnan = false →
      Dbl.lt (angularError pi row.yaw csvMsg.yaw) (.num (((c - 10 : Nat)) : α)) = true) :
    ∃ r, findValid fuel pi csvMsg bag c = .ok r ∧
      ((∃ row, c ≤ r + 10 ∧ r ≤ c + 10 ∧ bag[r]? = some row ∧ row.time = csvMsg.time ∧
          row.yaw.isnan = false ∧
          ∀ (k : Nat) (row1 : Row α), c ≤ k + 10 → k ≤ c + 10 → bag[k]? = some row1 →
            row1.time = csvMsg.time → row1.yaw.isnan = false → k ≤ r) ∨
        (r = c ∧
          ∀ (k : Nat) (row1 : Row α), c ≤ k + 10 → k ≤ c + 10 → bag[k]? = some row1 →
            ¬ (row1.time = csvMsg.time ∧ row1.yaw.isnan = false))) := by
  rw [findValid_of_window fuel pi csvMsg bag c hlen hc]
  have key := findValidLoop_inv pi csvMsg bag (c + 10)
    (fun i b => c ≤ i + 10 ∧ i ≤ c + 11 ∧ c ≤ b + 10 ∧ b ≤ c + 10 ∧
      ((b = c ∧ ∀ (k : Nat) (row : Row α), c ≤ k + 10 → k < i → bag[k]? = some row →
          ¬ (row.time = csvMsg.time ∧ row.yaw.isnan = false)) ∨
        (b < i ∧ (∃ row, bag[b]? = some row ∧ row.time = csvMsg.time ∧
            row.yaw.isnan = false) ∧
          ∀ (k : Nat) (row : Row α), c ≤ k + 10 → k < i → bag[k]? = some row →
            row.time = csvMsg.time → row.yaw.isnan = false → k ≤ b)))
    hc.2 (by omega)
    (by
      rintro i b ⟨_, _, _, hb, _⟩
      omega)
    (by
      rintro i b bi hi ⟨h0, h00, hb1, hb2, hinv⟩ hbi hbad
      have hnot : ¬ (bi.time = csvMsg.time ∧ bi.yaw.isnan = false) := by
        rintro ⟨ht, hn⟩
        rcases hbad with hbad | hbad
        · exact hbad ht
        · rw [hn] at hbad
          exact Bool.noConfusion hbad
      refine ⟨by omega, by omega, hb1, hb2, ?_⟩
      rcases hinv with ⟨hb, hnone⟩ | ⟨hlt, hval, hmax⟩
      · refine Or.inl ⟨hb, ?_⟩
        intro k row hk1 hk2 hrow
        rcases Nat.lt_or_ge k i with hlt | hge
        · exact hnone k row hk1 hlt hrow
        · have hki : k = i := by omega
          subst hki
          rw [hbi] at hrow
          rw [← Option.some.inj hrow]
          exact hnot
      · refine Or.inr ⟨by omega, hval, ?_⟩
        intro k row hk1 hk2 hrow ht hn
        rcases Nat.lt_or_ge k i with hlt1 | hge
        · exact hmax k row hk1 hlt1 hrow ht hn
        · have hki : k = i := by omega
          subst hki
          rw [hbi] at hrow
          rw [← Option.some.inj hrow] at ht hn
          exact absurd ⟨ht, hn⟩ hnot)
    (by
      rintro i b bi bb hi ⟨h0, h00, hb1, hb2, hinv⟩ hbi hbb ht hn
      have hb1le : (((c - 10 : Nat)) : α) ≤ (((if bb.yaw.isnan = true then i else b : Nat)) : α) := by
        apply Nat.cast_le.mpr
        split_ifs <;> omega
      have htest : Dbl.lt (angularError pi bi.yaw csvMsg.yaw)
          (.num (((if bb.yaw.isnan = true then i else b : Nat)) : α)) = true :=
        Dbl.lt_num_mono (herr i bi h0 hi hbi ht hn) hb1le
      rw [if_pos htest]
      refine ⟨by omega, by omega, h0, hi, Or.inr ⟨by omega, ⟨bi, hbi, ht, hn⟩, ?_⟩⟩
      intro k row hk1 hk2 _ _ _
      omega)
    fuel (c - 10) c (by omega) (by omega)
    ⟨by omega, by omega, by omega, by omega,
      Or.inl ⟨rfl, fun k row hk1 hk2 _ => by omega⟩⟩
  obtain ⟨r, hr, _, _, hr1, hr2, hinv⟩ := key
  refine ⟨r, hr, ?_⟩
  rcases hinv with ⟨hb, hnone⟩ | ⟨hlt, ⟨row, hrow, ht, hn⟩, hmax⟩
  · exact Or.inr ⟨hb, fun k row1 hk1 hk2 hrow1 => hnone k row1 hk1 (by omega) hrow1⟩
  · exact Or.inl ⟨row, hr1, hr2, hrow, ht, hn,
      fun k row1 hk1 hk2 hrow1 ht1 hn1 => hmax k row1 hk1 (by omega) hrow1 ht1 hn1⟩

/-- Witness of C18: in `series28` the candidate 17 has the rows 17, 18 and 19 with
the query time 17 in its window; their angular errors 0, 1 and 2 are below 7. -/
theorem findValid_selects_last_witness :
    ∃ r, findValid 22 M_PI (rowAt 17 0) (series28 : List (Row ℚ)) 17 = .ok r ∧
      ((∃ row, 17 ≤ r + 10 ∧ r ≤ 17 + 10 ∧ (series28 : List (Row ℚ))[r]? = some row ∧
          row.time = (rowAt 17 0 : Row ℚ).time ∧ row.yaw.isnan = false ∧
          ∀ (k : Nat) (row1 : Row ℚ), 17 ≤ k + 10 → k ≤ 17 + 10 →
            (series28 : List (Row ℚ))[k]? = some row1 →
            row1.time = (rowAt 17 0 : Row ℚ).time → row1.yaw.isnan = false → k ≤ r) ∨
        (r = 17 ∧
          ∀ (k : Nat) (row1 : Row ℚ), 17 ≤ k + 10 → k ≤ 17 + 10 →
            (series28 : List (Row ℚ))[k]? = some row1 →
            ¬ (row1.time = (rowAt 17 0 : Row ℚ).time ∧ row1.yaw.isnan = false))) :=
  findValid_selects_last 22 M_PI (rowAt 17 0) series28 17 (by decide) (by decide)
    (by decide)
    (fun k row _ hk hrow ht hn =>
      (by decide! : ∀ k, k ≤ 27 → ∀ row ∈ (series28 : List (Row ℚ))[k]?,
        row.time = (rowAt 17 0 : Row ℚ).time → row.yaw.isnan = false →
        Dbl.lt (angularError M_PI row.yaw (rowAt 17 0 : Row ℚ).yaw)
          (.num (((17 - 10 : Nat)) : ℚ)) = true) k hk row hrow ht hn)

end Claims

end CalcErrors
